import Mathlib

/-!
# ESP-NOW peer protocol (`main/espnow.c`): frame codec, peer table, reconciliation pass

A shallow embedding of the C module `main/espnow.c`.

Conventions of the embedding.

* A byte buffer is a `List Nat`; a buffer of the program holds values below 256.
* Unsigned machine integers are `Nat` with explicit reduction modulo `2 ^ w`
  where the C code truncates; the microsecond clock (`int64_t`) is `Int`.
* A pointer into the peer table is the index of the record; `NULL` is `none`.
* Pointer arguments are valid objects: guards that only reject a `NULL`
  argument are not part of the model.  `handle->entries`, which
  `esp_connection_handle_init` can leave `NULL`, is modelled.
* The outside world (clock, heap, random number generator, radio) is an
  `Env` of answer streams; the state counts the requests made so far.
* `espnow.h` is not among the sources.  What the code needs from it is either
  a parameter (`espnow_h`) or taken from the layout and constants the
  specification gives (marked as such).
-/

namespace Espnow

/-! ## Frame codec -/

/-- Modelled from the spec: `sizeof(espnow_data_t)`; the struct is declared in
`espnow.h`, which is absent.  The wire layout of the specification puts the
payload at offset 13: ack (1), salt (4), type (1), broadcast flag (1),
sequence number (2), payload length (2), checksum (2). -/
def ESPNOW_HEADER_LEN : Nat := 13

/-- One bit of the reflected CRC-16 with polynomial `0x8408`. -/
def crc16_bit (c : Nat) : Nat :=
  if c % 2 = 1 then (c / 2) ^^^ 0x8408 else c / 2

/-- One byte of the CRC: the byte is folded into the low half of the register,
which is then shifted out bit by bit.  This is what the table step
`crc16_le_table[(crc ^ buf[i]) & 0xff] ^ (crc >> 8)` of the ROM routine
computes. -/
def crc16_byte (c b : Nat) : Nat :=
  crc16_bit (crc16_bit (crc16_bit (crc16_bit
    (crc16_bit (crc16_bit (crc16_bit (crc16_bit (c ^^^ (b % 256)))))))))

/-- The ROM routine `esp_crc16_le(crc, buf, len)` of the platform library (not
part of this repository): the register starts at `~crc`, every byte of the
buffer is fed in, and the complement of the register is returned. -/
def esp_crc16_le (crc : Nat) (buf : List Nat) : Nat :=
  (buf.foldl crc16_byte ((crc % 65536) ^^^ 0xFFFF)) ^^^ 0xFFFF

/-- Little-endian 16-bit field at offset `off`. -/
def read_u16 (buf : List Nat) (off : Nat) : Nat :=
  buf.getD off 0 + 256 * buf.getD (off + 1) 0

/-- Little-endian 32-bit field at offset `off`. -/
def read_u32 (buf : List Nat) (off : Nat) : Nat :=
  buf.getD off 0 + 256 * buf.getD (off + 1) 0 + 65536 * buf.getD (off + 2) 0
    + 16777216 * buf.getD (off + 3) 0

/-- Store of a 16-bit value into the little-endian field at offset `off`. -/
def write_u16 (buf : List Nat) (off v : Nat) : List Nat :=
  (buf.set off (v % 256)).set (off + 1) (v / 256 % 256)

/-- Modelled from the spec: the frame `espnow_data_t` as the C code sees it
through a pointer cast onto a buffer.  The struct declaration is in the absent
`espnow.h`; the fields and their offsets are those of the wire layout of the
specification.  `payload` is the flexible array member: the `len` bytes that
start right after the header. -/
structure espnow_data_t where
  ack : Nat
  salt : Nat
  type : Nat
  broadcast : Nat
  seq_num : Nat
  len : Nat
  crc : Nat
  payload : List Nat
  deriving DecidableEq, Repr

/-- The cast `(espnow_data_t *)buf`: the fields read at their offsets. -/
def espnow_data_view (buf : List Nat) : espnow_data_t :=
  { ack := buf.getD 0 0
    salt := read_u32 buf 1
    type := buf.getD 5 0
    broadcast := buf.getD 6 0
    seq_num := read_u16 buf 7
    len := read_u16 buf 9
    crc := read_u16 buf 11
    payload := (buf.drop ESPNOW_HEADER_LEN).take (read_u16 buf 9) }

/-- Outcome of `espnow_data_parse`.  The C function returns the frame pointer
or `NULL`; the three ways of returning `NULL` on a valid event are told apart
by the warning that is logged. -/
inductive parse_result where
  | ok (frame : espnow_data_t)
  | too_short
  | length_mismatch
  | crc_mismatch
  deriving DecidableEq, Repr

/-- Function `espnow_data_parse` (`espnow.c`, lines 150-194) on the received
bytes `recv_cb->data` (with `recv_cb->data_len` their number). Returns the
outcome and the content of the buffer after the call: the function clears the
checksum field in place and puts it back only when the checksum matches. -/
def espnow_data_parse (data : List Nat) : parse_result × List Nat :=
  if data.length < ESPNOW_HEADER_LEN then (parse_result.too_short, data)
  else if read_u16 data 9 > data.length - ESPNOW_HEADER_LEN then
    (parse_result.length_mismatch, data)
  else
    let crc := read_u16 data 11
    let cleared := write_u16 data 11 0
    let crc_cal := esp_crc16_le 0xFFFF cleared
    if crc_cal ≠ crc then (parse_result.crc_mismatch, cleared)
    else
      let restored := write_u16 cleared 11 crc
      (parse_result.ok (espnow_data_view restored), restored)

/-- A six-byte hardware address (`uint8_t mac[ESP_NOW_ETH_ALEN]`). -/
structure mac_t where
  b0 : Nat
  b1 : Nat
  b2 : Nat
  b3 : Nat
  b4 : Nat
  b5 : Nat
  deriving DecidableEq, Repr

/-- The send descriptor `espnow_send_param_t` (declared in `espnow.h`): the
fields the module reads and writes. -/
structure espnow_send_param_t where
  ack : Nat
  type : Nat
  broadcast : Nat
  seq_num : Nat
  dest_mac : mac_t
  buffer : Option (List Nat)
  len : Nat
  deriving DecidableEq, Repr

/-- The bytes `espnow_payload_create` writes before the checksum is known:
header fields at their offsets, checksum field cleared, payload copied. -/
def espnow_packet_fill (send_param : espnow_send_param_t) (salt : Nat)
    (data : List Nat) : List Nat :=
  [ send_param.ack % 256,
    salt % 256, salt / 256 % 256, salt / 65536 % 256, salt / 16777216 % 256,
    send_param.type % 256,
    send_param.broadcast % 256,
    send_param.seq_num % 256, send_param.seq_num / 256 % 256,
    data.length % 256, data.length / 256 % 256,
    0, 0 ] ++ data

/-- Function `espnow_payload_create(send_param, data, len)` (`espnow.c`, lines
196-229) with `data` the `len` bytes to send. `malloc_ok` is the outcome of the
`malloc`, `salt` the value `esp_random()` returns. The result is the descriptor
after the call; the C function returns `NULL` exactly when `buffer` is `none`.
-/
def espnow_payload_create (send_param : espnow_send_param_t) (data : List Nat)
    (malloc_ok : Bool) (salt : Nat) : espnow_send_param_t :=
  if malloc_ok then
    let packet := espnow_packet_fill send_param salt data
    let crc := esp_crc16_le 0xFFFF packet
    { send_param with
      len := ESPNOW_HEADER_LEN + data.length
      buffer := some (write_u16 packet 11 crc) }
  else
    { send_param with len := ESPNOW_HEADER_LEN + data.length, buffer := none }

/-! ## Constants of `espnow.h` -/

/-- The enumeration constants and the queue length that `espnow.c` takes from
`espnow.h`.  The header is not among the sources, so their values are
parameters of the model. -/
structure espnow_h where
  ESPNOW_QUEUE_SIZE : Nat
  ESPNOW_PARAM_ACK_NACK : Nat
  ESPNOW_DATA_BROADCAST : Nat
  ESPNOW_DATA_UNICAST : Nat
  ESP_PEER_PACKET_CONNECT : Nat
  deriving DecidableEq, Repr

/-- Modelled from the spec: the macro `ONE_SECOND_IN_US` is defined in the
absent `espnow.h`; the transition table of the specification gives the timeout
as 1,000,000 microseconds. -/
def ONE_SECOND_IN_US : Int := 1000000

/-- The platform error code `ESP_ERR_INVALID_STATE`. -/
def ESP_ERR_INVALID_STATE : Nat := 0x103

/-- The address `broadcast_mac`. -/
def broadcast_mac : mac_t := ⟨0xFF, 0xFF, 0xFF, 0xFF, 0xFF, 0xFF⟩

/-! ## Peer table -/

/-- Modelled from the spec: the enumeration `esp_peer_status_t` of the absent
`espnow.h`; the states are those the specification lists, together with the
sentinel `ESP_PEER_STATUS_MAX` that `espnow.c` names. -/
inductive esp_peer_status_t where
  | UNKNOWN
  | IN_RANGE
  | AVAILABLE
  | CONNECTING
  | CONNECTED
  | NOREPLY
  | REJECTED
  | PROTOCOL_ERROR
  | LOST
  | MAX
  deriving DecidableEq, Repr

/-- Modelled from the spec: the peer record `esp_peer_t` of the absent
`espnow.h`, with the fields `espnow.c` uses.  The sequence counters are 16-bit,
the clock values are `int64_t` microseconds. -/
structure esp_peer_t where
  mac : mac_t
  status : esp_peer_status_t
  seq_tx : Nat
  seq_rx : Nat
  conn_retry : Nat
  lastseen_broadcast_us : Int
  lastseen_unicast_us : Int
  lastsent_unicast_us : Int
  connect_time_us : Int
  deriving DecidableEq, Repr

/-- The connection handle `esp_connection_handle_t`.  `entries` is `none` for
a `NULL` pointer; otherwise it holds the `handle->size` records of the array,
in index order, so that `handle->size` is the length of the list. -/
structure esp_connection_handle_t where
  remote_connected : Bool
  entries : Option (List esp_peer_t)
  deriving DecidableEq, Repr

/-- The field `handle->size`. -/
def esp_connection_handle_t.size (handle : esp_connection_handle_t) : Nat :=
  match handle.entries with
  | some es => es.length
  | none => 0

/-- An event of the queue, `espnow_event_t`: the tag and the member of the
union that goes with it. -/
inductive espnow_event_t where
  | send_cb (mac_addr : mac_t) (status : Nat)
  | recv_cb (mac_addr : mac_t) (data : List Nat)
  deriving DecidableEq, Repr

/-- The outside world as streams of answers: the `n`-th request of the program
(of any kind) is answered by the stream of its kind at position `n`. -/
structure Env where
  /-- value returned by `esp_timer_get_time()` -/
  esp_timer_get_time : Nat → Int
  /-- whether a `malloc` or `realloc` succeeds -/
  malloc_ok : Nat → Bool
  /-- content of the memory a successful `realloc` adds to the table -/
  heap_content : Nat → esp_peer_t
  /-- value returned by `esp_random()` -/
  esp_random : Nat → Nat
  /-- error code returned by `esp_now_send` -/
  esp_now_send : Nat → Nat

/-- The state of the module: the connection handle, the file-scope variables
of `espnow.c`, the frames handed to the radio so far, and the number of
requests made to the outside world. -/
structure espnow_state where
  handle : esp_connection_handle_t
  /-- whether the file-scope pointer `esp_connection_handle` refers to
  `handle` (set by `espnow_init`); otherwise it is `NULL` -/
  handle_registered : Bool
  /-- the counter `espnow_seq[ESPNOW_PARAM_SEQ_TX]` -/
  espnow_seq_tx : Nat
  /-- content of `espnow_queue`, oldest event first -/
  espnow_queue : List espnow_event_t
  /-- the calls `esp_now_send(dest_mac, buffer, len)` made so far, oldest first -/
  sent : List (mac_t × List Nat)
  calls : Nat

/-- Function `esp_connection_handle_init` (`espnow.c`, lines 374-390): an empty
table, or `entries = NULL` when the `malloc` fails. -/
def esp_connection_handle_init (malloc_ok : Bool) : esp_connection_handle_t :=
  { remote_connected := false
    entries := if malloc_ok then some [] else none }

/-- Function `esp_mac_check_equals` (`espnow.c`, lines 457-469): the loop over
the six bytes, unrolled. -/
def esp_mac_check_equals (mac1 mac2 : mac_t) : Bool :=
  if mac1.b0 ≠ mac2.b0 then false
  else if mac1.b1 ≠ mac2.b1 then false
  else if mac1.b2 ≠ mac2.b2 then false
  else if mac1.b3 ≠ mac2.b3 then false
  else if mac1.b4 ≠ mac2.b4 then false
  else if mac1.b5 ≠ mac2.b5 then false
  else true

/-- The scan of `esp_connection_mac_lookup` from index `i` on, over the records
`es` that start at that index. -/
def mac_lookup_from (mac : mac_t) : List esp_peer_t → Nat → Option Nat
  | [], _ => none
  | peer :: rest, i =>
    if esp_mac_check_equals peer.mac mac then some i else mac_lookup_from mac rest (i + 1)

/-- Function `esp_connection_mac_lookup` (`espnow.c`, lines 495-515): index of
the first record with the address. -/
def esp_connection_mac_lookup (handle : esp_connection_handle_t) (mac : mac_t) : Option Nat :=
  match handle.entries with
  | none => none
  | some es => mac_lookup_from mac es 0

/-- Function `esp_connection_count_connected` (`espnow.c`, lines 471-493): the counting loop. -/
def esp_connection_count_connected (handle : esp_connection_handle_t) : Nat :=
  match handle.entries with
  | none => 0
  | some es =>
    es.foldl (fun count peer =>
      if peer.status = esp_peer_status_t.CONNECTED then count + 1 else count) 0

/-- Function `esp_connection_peer_init` (`espnow.c`, lines 517-531) on the
record `peer` (whatever it holds): `t1` and `t2` are the two readings of the
clock. `lastsent_unicast_us` and `connect_time_us` are not written. -/
def esp_connection_peer_init (peer : esp_peer_t) (mac : mac_t) (t1 t2 : Int) : esp_peer_t :=
  { peer with
    mac := mac
    conn_retry := 0
    lastseen_broadcast_us := t1
    lastseen_unicast_us := t2
    seq_rx := 0
    seq_tx := 0
    status := esp_peer_status_t.UNKNOWN }

/-- Function `esp_connection_mac_add_to_entry(handle, mac)` (`espnow.c`, lines
533-571): the returned pointer (as the index of the record, `none` for `NULL`)
and the state after the call. -/
def esp_connection_mac_add_to_entry (env : Env) (s : espnow_state) (mac : mac_t) :
    Option Nat × espnow_state :=
  match s.handle.entries with
  | none => (none, s)
  | some es =>
    match esp_connection_mac_lookup s.handle mac with
    | some i => (some i, s)
    | none =>
      if env.malloc_ok s.calls then
        let new_peer := esp_connection_peer_init (env.heap_content s.calls) mac
          (env.esp_timer_get_time (s.calls + 1)) (env.esp_timer_get_time (s.calls + 2))
        (some es.length,
          { s with
            handle := { s.handle with entries := some (es ++ [new_peer]) }
            calls := s.calls + 3 })
      else (none, { s with calls := s.calls + 1 })

/-- Function `esp_peer_set_status` (`espnow.c`, lines 588-592). -/
def esp_peer_set_status (peer : esp_peer_t) (new_status : esp_peer_status_t) : esp_peer_t :=
  { peer with status := new_status }

/-- Store through a pointer to record `i` of the table. -/
def espnow_state.set_peer (s : espnow_state) (i : Nat) (peer : esp_peer_t) : espnow_state :=
  match s.handle.entries with
  | none => s
  | some es => { s with handle := { s.handle with entries := some (es.set i peer) } }

/-- Load through a pointer to record `i` of the table. -/
def espnow_state.get_peer (s : espnow_state) (i : Nat) : Option esp_peer_t :=
  match s.handle.entries with
  | none => none
  | some es => es[i]?

/-- Function `espnow_default_send_param` (`espnow.c`, lines 31-42): the
descriptor zeroed, then set to broadcast. -/
def espnow_default_send_param (H : espnow_h) : espnow_send_param_t :=
  { ack := 0, type := 0, broadcast := H.ESPNOW_DATA_BROADCAST, seq_num := 0,
    dest_mac := broadcast_mac, buffer := none, len := 0 }

/-- Function `espnow_get_send_param_unicast` (`espnow.c`, lines 347-357). -/
def espnow_get_send_param_unicast (H : espnow_h) (send_param : espnow_send_param_t)
    (mac : mac_t) : espnow_send_param_t :=
  { send_param with broadcast := H.ESPNOW_DATA_UNICAST, dest_mac := mac }

/-- Function `espnow_payload_cleanup` (`espnow.c`, lines 231-248). -/
def espnow_payload_cleanup (send_param : espnow_send_param_t) : espnow_send_param_t :=
  { send_param with buffer := none, len := 0 }

/-- The first part of `espnow_send_data` (`espnow.c`, lines 258-268: the lookup
of the destination and the assignment of the sequence number): the descriptor
and the state after it. The peer is looked up through the file-scope pointer
`esp_connection_handle`; a destination that is not found takes its number from
`espnow_seq`. -/
def espnow_send_data_seq (env : Env) (s : espnow_state) (send_param : espnow_send_param_t) :
    espnow_send_param_t × espnow_state :=
  let found : Option (Nat × esp_peer_t) :=
    if s.handle_registered then
      match esp_connection_mac_lookup s.handle send_param.dest_mac with
      | none => none
      | some i =>
        match s.get_peer i with
        | none => none
        | some peer => some (i, peer)
    else none
  match found with
  | none =>
    ({ send_param with seq_num := s.espnow_seq_tx },
     { s with espnow_seq_tx := (s.espnow_seq_tx + 1) % 65536 })
  | some (i, peer) =>
    ({ send_param with seq_num := peer.seq_tx },
     { (s.set_peer i
          { peer with
            seq_tx := (peer.seq_tx + 1) % 65536
            lastsent_unicast_us := env.esp_timer_get_time s.calls }) with
       calls := s.calls + 1 })

/-- Function `espnow_send_data(send_param, type, data, len)` (`espnow.c`, lines
250-283): the returned error code, the descriptor after the call and the state
after the call. -/
def espnow_send_data (H : espnow_h) (env : Env) (s : espnow_state)
    (send_param : espnow_send_param_t) (type : Nat) (data : List Nat) :
    Nat × espnow_send_param_t × espnow_state :=
  let sp1 := { (espnow_send_data_seq env s send_param).1 with
    ack := H.ESPNOW_PARAM_ACK_NACK, type := type }
  let s1 := (espnow_send_data_seq env s send_param).2
  let sp2 := espnow_payload_create sp1 data (env.malloc_ok s1.calls) (env.esp_random (s1.calls + 1))
  match sp2.buffer with
  | none => (ESP_ERR_INVALID_STATE, sp2, { s1 with calls := s1.calls + 1 })
  | some buffer =>
    (env.esp_now_send (s1.calls + 2), espnow_payload_cleanup sp2,
      { s1 with sent := s1.sent ++ [(sp2.dest_mac, buffer)], calls := s1.calls + 3 })

/-- The body of the loop of `esp_connection_handle_update` (`espnow.c`, lines
417-453) for index `i`. -/
def esp_connection_handle_update_peer (H : espnow_h) (env : Env) (s : espnow_state)
    (i : Nat) : espnow_state :=
  match s.get_peer i with
  | none => s
  | some peer =>
    match peer.status with
    | esp_peer_status_t.UNKNOWN
    | esp_peer_status_t.PROTOCOL_ERROR
    | esp_peer_status_t.NOREPLY
    | esp_peer_status_t.REJECTED
    | esp_peer_status_t.IN_RANGE =>
      if env.esp_timer_get_time s.calls - peer.lastseen_broadcast_us > ONE_SECOND_IN_US then
        ({ s with calls := s.calls + 1 }).set_peer i
          (esp_peer_set_status peer esp_peer_status_t.LOST)
      else { s with calls := s.calls + 1 }
    | esp_peer_status_t.CONNECTED =>
      if env.esp_timer_get_time s.calls - peer.lastseen_unicast_us > ONE_SECOND_IN_US then
        ({ s with calls := s.calls + 1 }).set_peer i
          (esp_peer_set_status peer esp_peer_status_t.LOST)
      else { s with calls := s.calls + 1 }
    | esp_peer_status_t.CONNECTING =>
      if env.esp_timer_get_time s.calls - peer.connect_time_us > ONE_SECOND_IN_US then
        ({ s with calls := s.calls + 1 }).set_peer i
          (esp_peer_set_status peer esp_peer_status_t.NOREPLY)
      else { s with calls := s.calls + 1 }
    | esp_peer_status_t.AVAILABLE =>
      let s1 := ({ s with calls := s.calls + 1 }).set_peer i
        { peer with connect_time_us := env.esp_timer_get_time s.calls }
      let send_param := espnow_get_send_param_unicast H (espnow_default_send_param H) peer.mac
      let s2 := (espnow_send_data H env s1 send_param H.ESP_PEER_PACKET_CONNECT []).2.2
      match s2.get_peer i with
      | none => s2
      | some peer2 => s2.set_peer i (esp_peer_set_status peer2 esp_peer_status_t.CONNECTING)
    | esp_peer_status_t.LOST
    | esp_peer_status_t.MAX => s

/-- The loop of `esp_connection_handle_update` run for the indices below `n`:
the state after the first `n` iterations. -/
def update_iterations (H : espnow_h) (env : Env) (s : espnow_state) (n : Nat) : espnow_state :=
  (List.range n).foldl (esp_connection_handle_update_peer H env) s

/-- Function `esp_connection_handle_update(handle)` (`espnow.c`, lines 407-456):
one reconciliation pass, the loop over all `handle->size` records followed by
the update of `handle->remote_connected`. -/
def esp_connection_handle_update (H : espnow_h) (env : Env) (s : espnow_state) :
    espnow_state :=
  match s.handle.entries with
  | none => s
  | some es =>
    let s1 := update_iterations H env s es.length
    { s1 with
      handle := { s1.handle with
        remote_connected := decide (esp_connection_count_connected s1.handle ≠ 0) } }

/-- The queue primitive `xQueueSend(queue, &evt, 0)`: the event is stored when
a slot is free; the result tells whether it was. -/
def xQueueSend (capacity : Nat) (queue : List espnow_event_t) (evt : espnow_event_t) :
    Bool × List espnow_event_t :=
  if queue.length < capacity then (true, queue ++ [evt]) else (false, queue)

/-- Function `espnow_send_cb(mac_addr, status)` (`espnow.c`, lines 99-117);
`mac_addr` is `none` for `NULL`. -/
def espnow_send_cb (H : espnow_h) (s : espnow_state) (mac_addr : Option mac_t)
    (status : Nat) : espnow_state :=
  match mac_addr with
  | none => s
  | some mac =>
    { s with espnow_queue :=
        (xQueueSend H.ESPNOW_QUEUE_SIZE s.espnow_queue (espnow_event_t.send_cb mac status)).2 }

/-- Function `espnow_recv_cb(recv_info, data, len)` (`espnow.c`, lines 119-147):
`src_addr` is `recv_info->src_addr`, `data` the `len` received bytes; either is
`none` for `NULL`. -/
def espnow_recv_cb (H : espnow_h) (env : Env) (s : espnow_state) (src_addr : Option mac_t)
    (data : Option (List Nat)) : espnow_state :=
  match src_addr, data with
  | some mac, some bytes =>
    if bytes.length = 0 then s
    else if env.malloc_ok s.calls then
      { s with
        espnow_queue :=
          (xQueueSend H.ESPNOW_QUEUE_SIZE s.espnow_queue (espnow_event_t.recv_cb mac bytes)).2
        calls := s.calls + 1 }
    else { s with calls := s.calls + 1 }
  | _, _ => s

/-! ## Auxiliary definitions for the statements -/

/-- The fields of a peer record that the reconciliation pass reads: address,
status, and the three time stamps it compares or sets. -/
def peer_view (p : esp_peer_t) : mac_t × esp_peer_status_t × Int × Int × Int :=
  (p.mac, p.status, p.lastseen_broadcast_us, p.lastseen_unicast_us, p.connect_time_us)

/-- What one loop iteration of `esp_connection_handle_update`, run at clock
reading `now`, does to the record it is run for (the sending of the CONNECT
frame apart). -/
def peer_step (now : Int) (p : esp_peer_t) : esp_peer_t :=
  match p.status with
  | esp_peer_status_t.UNKNOWN
  | esp_peer_status_t.PROTOCOL_ERROR
  | esp_peer_status_t.NOREPLY
  | esp_peer_status_t.REJECTED
  | esp_peer_status_t.IN_RANGE =>
    if now - p.lastseen_broadcast_us > ONE_SECOND_IN_US then
      { p with status := esp_peer_status_t.LOST } else p
  | esp_peer_status_t.CONNECTED =>
    if now - p.lastseen_unicast_us > ONE_SECOND_IN_US then
      { p with status := esp_peer_status_t.LOST } else p
  | esp_peer_status_t.CONNECTING =>
    if now - p.connect_time_us > ONE_SECOND_IN_US then
      { p with status := esp_peer_status_t.NOREPLY } else p
  | esp_peer_status_t.AVAILABLE =>
    { p with status := esp_peer_status_t.CONNECTING, connect_time_us := now }
  | esp_peer_status_t.LOST
  | esp_peer_status_t.MAX => p

/-- The results of `n` successive calls of `esp_connection_mac_add_to_entry`
with the same address: for each call the returned table position and the table
size after the call. -/
def add_repeated (env : Env) (mac : mac_t) : Nat → espnow_state → List (Option Nat × Nat)
  | 0, _ => []
  | n + 1, s =>
    ((esp_connection_mac_add_to_entry env s mac).1,
      (esp_connection_mac_add_to_entry env s mac).2.handle.size)
      :: add_repeated env mac n (esp_connection_mac_add_to_entry env s mac).2

/-! ## Sample data -/

/-- Sample values for the constants of `espnow.h`. -/
def sample_h : espnow_h :=
  { ESPNOW_QUEUE_SIZE := 16, ESPNOW_PARAM_ACK_NACK := 0, ESPNOW_DATA_BROADCAST := 0,
    ESPNOW_DATA_UNICAST := 1, ESP_PEER_PACKET_CONNECT := 3 }

/-- A sample world: the clock reads `now` at every request, every allocation
succeeds or every allocation fails according to `ok`. -/
def sample_env (now : Int) (ok : Bool) : Env :=
  { esp_timer_get_time := fun _ => now
    malloc_ok := fun _ => ok
    heap_content := fun _ =>
      ⟨⟨0, 0, 0, 0, 0, 0⟩, esp_peer_status_t.MAX, 9, 9, 9, 9, 9, 9, 9⟩
    esp_random := fun _ => 0
    esp_now_send := fun _ => 0 }

/-- A sample peer record with address `01:02:03:04:05:n`. -/
def sample_peer (n : Nat) (status : esp_peer_status_t) (lastseen_broadcast_us
    lastseen_unicast_us connect_time_us : Int) : esp_peer_t :=
  { mac := ⟨1, 2, 3, 4, 5, n⟩, status := status, seq_tx := 0, seq_rx := 0, conn_retry := 0,
    lastseen_broadcast_us := lastseen_broadcast_us
    lastseen_unicast_us := lastseen_unicast_us
    lastsent_unicast_us := 0
    connect_time_us := connect_time_us }

/-- A sample state: the given table, registered with the module, nothing
queued, nothing sent. -/
def sample_state (es : List esp_peer_t) : espnow_state :=
  { handle := { remote_connected := false, entries := some es }
    handle_registered := true, espnow_seq_tx := 0, espnow_queue := [], sent := [], calls := 0 }

/-- The entry `f` of the radio log is the CONNECT frame for peer `p`: it is
addressed to `p` and its bytes are the frame `espnow_payload_create` builds for
a unicast descriptor of type CONNECT with empty payload (for some sequence
number and salt). -/
def connect_frame_for (H : espnow_h) (p : esp_peer_t) (f : mac_t × List Nat) : Prop :=
  f.1 = p.mac ∧ ∃ seq salt,
    (espnow_payload_create
        { ack := H.ESPNOW_PARAM_ACK_NACK, type := H.ESP_PEER_PACKET_CONNECT,
          broadcast := H.ESPNOW_DATA_UNICAST, seq_num := seq, dest_mac := p.mac,
          buffer := none, len := 0 }
        [] true salt).buffer = some f.2

/-! ## Reachable states -/

/-- The states of the module that can arise: a connection handle fresh from
`esp_connection_handle_init` (the other variables of the module holding any
values), followed by any sequence of calls of `esp_connection_mac_add_to_entry`,
`esp_connection_handle_update` and `espnow_send_data`, in any world, and also of
`esp_peer_set_status` on a record of the table and of the two radio
callbacks. -/
inductive reachable (H : espnow_h) : espnow_state → Prop where
  | init (malloc_ok registered : Bool) (seq_tx : Nat) (queue : List espnow_event_t)
      (sent : List (mac_t × List Nat)) (calls : Nat) :
      reachable H
        { handle := esp_connection_handle_init malloc_ok, handle_registered := registered,
          espnow_seq_tx := seq_tx, espnow_queue := queue, sent := sent, calls := calls }
  | add (env : Env) (s : espnow_state) (mac : mac_t) :
      reachable H s → reachable H (esp_connection_mac_add_to_entry env s mac).2
  | update (env : Env) (s : espnow_state) :
      reachable H s → reachable H (esp_connection_handle_update H env s)
  | send (env : Env) (s : espnow_state) (send_param : espnow_send_param_t) (type : Nat)
      (data : List Nat) :
      reachable H s → reachable H (espnow_send_data H env s send_param type data).2.2
  | set_status (s : espnow_state) (i : Nat) (peer : esp_peer_t)
      (new_status : esp_peer_status_t) :
      reachable H s → s.get_peer i = some peer →
      reachable H (s.set_peer i (esp_peer_set_status peer new_status))
  | send_cb (s : espnow_state) (mac_addr : Option mac_t) (status : Nat) :
      reachable H s → reachable H (espnow_send_cb H s mac_addr status)
  | recv_cb (env : Env) (s : espnow_state) (src_addr : Option mac_t)
      (data : Option (List Nat)) :
      reachable H s → reachable H (espnow_recv_cb H env s src_addr data)

/-- A sample reachable state: after `esp_connection_handle_init`, one address
is inserted while the clock reads 5000, and the status of the new record is set
to `LOST`. -/
def sample_reached : espnow_state :=
  (esp_connection_mac_add_to_entry (sample_env 5000 true)
      { handle := esp_connection_handle_init true, handle_registered := true,
        espnow_seq_tx := 0, espnow_queue := [], sent := [], calls := 0 }
      ⟨1, 2, 3, 4, 5, 6⟩).2.set_peer 0
    (esp_peer_set_status
      (esp_connection_peer_init ((sample_env 5000 true).heap_content 0) ⟨1, 2, 3, 4, 5, 6⟩
        5000 5000)
      esp_peer_status_t.LOST)

/-! # Theorems -/

set_option maxRecDepth 100000

/-! ## Checksum: range -/

theorem crc16_bit_lt {c : Nat} (h : c < 65536) : crc16_bit c < 65536 := by
  unfold crc16_bit
  split
  · exact Nat.xor_lt_two_pow (n := 16) (by omega) (by norm_num)
  · omega

theorem crc16_byte_lt {c : Nat} (b : Nat) (h : c < 65536) : crc16_byte c b < 65536 := by
  unfold crc16_byte
  have h0 : c ^^^ (b % 256) < 65536 :=
    Nat.xor_lt_two_pow (n := 16) h (by omega)
  exact crc16_bit_lt (crc16_bit_lt (crc16_bit_lt (crc16_bit_lt
    (crc16_bit_lt (crc16_bit_lt (crc16_bit_lt (crc16_bit_lt h0)))))))

theorem crc16_foldl_lt (buf : List Nat) :
    ∀ {c : Nat}, c < 65536 → buf.foldl crc16_byte c < 65536 := by
  induction buf with
  | nil => intro c h; simpa using h
  | cons b bs ih => intro c h; exact ih (crc16_byte_lt b h)

theorem esp_crc16_le_lt (crc : Nat) (buf : List Nat) : esp_crc16_le crc buf < 65536 := by
  unfold esp_crc16_le
  have h0 : (crc % 65536) ^^^ 0xFFFF < 65536 :=
    Nat.xor_lt_two_pow (n := 16) (by omega) (by norm_num)
  exact Nat.xor_lt_two_pow (n := 16) (crc16_foldl_lt buf h0) (by norm_num)

/-! ## Codec: the packet built by `espnow_payload_create` -/

theorem packet_length (sp : espnow_send_param_t) (salt : Nat) (data : List Nat) :
    (espnow_packet_fill sp salt data).length = ESPNOW_HEADER_LEN + data.length := by
  simp [espnow_packet_fill, ESPNOW_HEADER_LEN]; omega

theorem write_u16_length (buf : List Nat) (off v : Nat) :
    (write_u16 buf off v).length = buf.length := by
  simp [write_u16]

theorem packet_sealed_len (sp : espnow_send_param_t) (salt crc : Nat) (data : List Nat) :
    read_u16 (write_u16 (espnow_packet_fill sp salt data) 11 crc) 9 = data.length % 65536 := by
  simp [espnow_packet_fill, write_u16, read_u16]
  omega

theorem packet_sealed_crc (sp : espnow_send_param_t) (salt crc : Nat) (data : List Nat) :
    read_u16 (write_u16 (espnow_packet_fill sp salt data) 11 crc) 11 = crc % 65536 := by
  simp [espnow_packet_fill, write_u16, read_u16]
  omega

theorem packet_sealed_clear (sp : espnow_send_param_t) (salt crc : Nat) (data : List Nat) :
    write_u16 (write_u16 (espnow_packet_fill sp salt data) 11 crc) 11 0
      = espnow_packet_fill sp salt data := by
  simp [espnow_packet_fill, write_u16]

theorem packet_sealed_view (sp : espnow_send_param_t) (salt crc : Nat) (data : List Nat) :
    espnow_data_view (write_u16 (espnow_packet_fill sp salt data) 11 crc)
      = { ack := sp.ack % 256
          salt := salt % 4294967296
          type := sp.type % 256
          broadcast := sp.broadcast % 256
          seq_num := sp.seq_num % 65536
          len := data.length % 65536
          crc := crc % 65536
          payload := data.take (data.length % 65536) } := by
  simp [espnow_packet_fill, write_u16, read_u16, read_u32, espnow_data_view, ESPNOW_HEADER_LEN]
  refine ⟨by omega, by omega, by omega, by omega, ?_⟩
  congr 1
  omega

theorem parse_packet (sp : espnow_send_param_t) (salt : Nat) (data : List Nat) :
    espnow_data_parse (write_u16 (espnow_packet_fill sp salt data) 11
        (esp_crc16_le 0xFFFF (espnow_packet_fill sp salt data)))
      = (parse_result.ok
          { ack := sp.ack % 256
            salt := salt % 4294967296
            type := sp.type % 256
            broadcast := sp.broadcast % 256
            seq_num := sp.seq_num % 65536
            len := data.length % 65536
            crc := esp_crc16_le 0xFFFF (espnow_packet_fill sp salt data)
            payload := data.take (data.length % 65536) },
         write_u16 (espnow_packet_fill sp salt data) 11
          (esp_crc16_le 0xFFFF (espnow_packet_fill sp salt data))) := by
  have hc := esp_crc16_le_lt 0xFFFF (espnow_packet_fill sp salt data)
  have hmod : esp_crc16_le 0xFFFF (espnow_packet_fill sp salt data) % 65536
      = esp_crc16_le 0xFFFF (espnow_packet_fill sp salt data) := Nat.mod_eq_of_lt hc
  have hlen : ¬ (write_u16 (espnow_packet_fill sp salt data) 11
        (esp_crc16_le 0xFFFF (espnow_packet_fill sp salt data))).length < ESPNOW_HEADER_LEN := by
    rw [write_u16_length, packet_length]; omega
  have hdecl : ¬ read_u16 (write_u16 (espnow_packet_fill sp salt data) 11
        (esp_crc16_le 0xFFFF (espnow_packet_fill sp salt data))) 9
      > (write_u16 (espnow_packet_fill sp salt data) 11
        (esp_crc16_le 0xFFFF (espnow_packet_fill sp salt data))).length - ESPNOW_HEADER_LEN := by
    rw [packet_sealed_len, write_u16_length, packet_length]
    have := Nat.mod_le data.length 65536
    omega
  unfold espnow_data_parse
  rw [if_neg hlen, if_neg hdecl]
  simp only [packet_sealed_clear, packet_sealed_crc, hmod, ne_eq, not_true_eq_false, if_false,
    packet_sealed_view]

/-! ## Checksum: a change of one byte changes the checksum -/

theorem xor_poly_ge {x : Nat} (h : x < 32768) : 32768 ≤ x ^^^ 0x8408 := by
  have hx : x.testBit 15 = false := Nat.testBit_lt_two_pow (by simpa using h)
  have hb : (x ^^^ 0x8408).testBit 15 = true := by
    rw [Nat.testBit_xor, hx]; decide
  simpa using Nat.testBit_implies_ge hb

theorem crc16_bit_inj {c d : Nat} (hc : c < 65536) (hd : d < 65536)
    (h : crc16_bit c = crc16_bit d) : c = d := by
  unfold crc16_bit at h
  have hc2 : c / 2 < 32768 := by omega
  have hd2 : d / 2 < 32768 := by omega
  split at h <;> split at h
  · have := Nat.xor_left_injective h
    omega
  · have := xor_poly_ge hc2
    omega
  · have := xor_poly_ge hd2
    omega
  · omega

theorem crc16_bits_inj {x y : Nat} (hx : x < 65536) (hy : y < 65536)
    (h : crc16_bit (crc16_bit (crc16_bit (crc16_bit
          (crc16_bit (crc16_bit (crc16_bit (crc16_bit x)))))))
       = crc16_bit (crc16_bit (crc16_bit (crc16_bit
          (crc16_bit (crc16_bit (crc16_bit (crc16_bit y)))))))) : x = y := by
  have x1 := crc16_bit_lt hx
  have x2 := crc16_bit_lt x1
  have x3 := crc16_bit_lt x2
  have x4 := crc16_bit_lt x3
  have x5 := crc16_bit_lt x4
  have x6 := crc16_bit_lt x5
  have x7 := crc16_bit_lt x6
  have y1 := crc16_bit_lt hy
  have y2 := crc16_bit_lt y1
  have y3 := crc16_bit_lt y2
  have y4 := crc16_bit_lt y3
  have y5 := crc16_bit_lt y4
  have y6 := crc16_bit_lt y5
  have y7 := crc16_bit_lt y6
  exact crc16_bit_inj hx hy (crc16_bit_inj x1 y1 (crc16_bit_inj x2 y2 (crc16_bit_inj x3 y3
    (crc16_bit_inj x4 y4 (crc16_bit_inj x5 y5 (crc16_bit_inj x6 y6 (crc16_bit_inj x7 y7 h)))))))

theorem crc16_byte_inj_state {c d : Nat} (b : Nat) (hc : c < 65536) (hd : d < 65536)
    (h : crc16_byte c b = crc16_byte d b) : c = d := by
  unfold crc16_byte at h
  have hx : c ^^^ (b % 256) < 65536 := Nat.xor_lt_two_pow (n := 16) hc (by omega)
  have hy : d ^^^ (b % 256) < 65536 := Nat.xor_lt_two_pow (n := 16) hd (by omega)
  exact Nat.xor_left_injective (crc16_bits_inj hx hy h)

theorem crc16_byte_inj_byte {c : Nat} (a b : Nat) (hc : c < 65536)
    (h : crc16_byte c a = crc16_byte c b) : a % 256 = b % 256 := by
  unfold crc16_byte at h
  have hx : c ^^^ (a % 256) < 65536 := Nat.xor_lt_two_pow (n := 16) hc (by omega)
  have hy : c ^^^ (b % 256) < 65536 := Nat.xor_lt_two_pow (n := 16) hc (by omega)
  exact Nat.xor_right_injective (crc16_bits_inj hx hy h)

theorem crc16_foldl_inj (buf : List Nat) :
    ∀ {c d : Nat}, c < 65536 → d < 65536 →
      buf.foldl crc16_byte c = buf.foldl crc16_byte d → c = d := by
  induction buf with
  | nil => intro c d _ _ h; simpa using h
  | cons b bs ih =>
    intro c d hc hd h
    exact crc16_byte_inj_state b hc hd (ih (crc16_byte_lt b hc) (crc16_byte_lt b hd) h)

/-- Replacing one byte of a buffer by a different byte changes `esp_crc16_le`. -/
theorem esp_crc16_le_set_ne (crc : Nat) (buf : List Nat) (i v : Nat) (hi : i < buf.length)
    (hv : v % 256 ≠ buf.getD i 0 % 256) :
    esp_crc16_le crc (buf.set i v) ≠ esp_crc16_le crc buf := by
  intro h
  unfold esp_crc16_le at h
  have h0 : (crc % 65536) ^^^ 0xFFFF < 65536 :=
    Nat.xor_lt_two_pow (n := 16) (by omega) (by norm_num)
  have h1 := Nat.xor_left_injective h
  have hset : buf.set i v = buf.take i ++ v :: buf.drop (i + 1) := by
    rw [List.set_eq_take_append_cons_drop, if_pos hi]
  have hsame : buf = buf.take i ++ buf.getD i 0 :: buf.drop (i + 1) := by
    rw [List.getD_eq_getElem buf 0 hi]
    simp
  rw [hset] at h1
  rw [List.foldl_append, List.foldl_cons] at h1
  generalize hb : buf.getD i 0 = b at hv hsame
  have h2 : List.foldl crc16_byte (crc % 65536 ^^^ 65535) buf
      = List.foldl crc16_byte (crc16_byte (List.foldl crc16_byte (crc % 65536 ^^^ 65535)
          (buf.take i)) b) (buf.drop (i + 1)) := by
    conv_lhs => rw [hsame]
    rw [List.foldl_append, List.foldl_cons]
  rw [h2] at h1
  have hp := crc16_foldl_lt (buf.take i) h0
  have h3 := crc16_foldl_inj (buf.drop (i + 1)) (crc16_byte_lt v hp) (crc16_byte_lt b hp) h1
  exact hv (crc16_byte_inj_byte v b hp h3)

/-! ## Codec: reads and writes of single bytes -/

theorem getD_set_ne (l : List Nat) (i k v : Nat) (h : i ≠ k) :
    (l.set i v).getD k 0 = l.getD k 0 := by
  simp [List.getD_eq_getElem?_getD, List.getElem?_set_ne h]

theorem getD_set_self (l : List Nat) (i v : Nat) (h : i < l.length) :
    (l.set i v).getD i 0 = v := by
  simp [List.getD_eq_getElem?_getD, List.getElem?_set_self h]

theorem read_u16_set_ne (l : List Nat) (i v off : Nat) (h1 : i ≠ off) (h2 : i ≠ off + 1) :
    read_u16 (l.set i v) off = read_u16 l off := by
  unfold read_u16
  rw [getD_set_ne l i _ v h1, getD_set_ne l i _ v h2]

theorem read_u16_write_u16_ne (l : List Nat) (off v k : Nat) (h1 : off ≠ k) (h2 : off ≠ k + 1)
    (h3 : off + 1 ≠ k) (h4 : off + 1 ≠ k + 1) :
    read_u16 (write_u16 l off v) k = read_u16 l k := by
  unfold write_u16
  rw [read_u16_set_ne _ _ _ _ h3 h4, read_u16_set_ne _ _ _ _ h1 h2]

theorem write_u16_set_comm (l : List Nat) (i v off w : Nat) (h1 : i ≠ off) (h2 : i ≠ off + 1) :
    write_u16 (l.set i v) off w = (write_u16 l off w).set i v := by
  unfold write_u16
  rw [List.set_comm _ _ l h1, List.set_comm _ _ _ h2]

theorem write_u16_set_lo (l : List Nat) (v off w : Nat) :
    write_u16 (l.set off v) off w = write_u16 l off w := by
  unfold write_u16
  rw [List.set_set]

theorem write_u16_set_hi (l : List Nat) (v off w : Nat) :
    write_u16 (l.set (off + 1) v) off w = write_u16 l off w := by
  unfold write_u16
  rw [List.set_comm _ _ l (by omega : off + 1 ≠ off), List.set_set]

theorem packet_bytes (sp : espnow_send_param_t) (salt : Nat) (data : List Nat)
    (hdata : ∀ b ∈ data, b < 256) (k : Nat) :
    (espnow_packet_fill sp salt data).getD k 0 < 256 := by
  have hall : ∀ b ∈ espnow_packet_fill sp salt data, b < 256 := by
    intro b hb
    simp only [espnow_packet_fill, List.mem_append, List.mem_cons, List.mem_singleton,
      List.not_mem_nil, or_false] at hb
    rcases hb with (h | h | h | h | h | h | h | h | h | h | h | h | h) | h
    all_goals first | exact hdata b h | omega
  rw [List.getD_eq_getElem?_getD]
  cases hk : (espnow_packet_fill sp salt data)[k]? with
  | none => simp
  | some x =>
    simp only [Option.getD_some]
    exact hall x (List.getElem?_mem hk)

/-! ## Codec: a packet with one byte replaced -/

theorem packet_sealed_getD_lo (sp : espnow_send_param_t) (salt crc : Nat) (data : List Nat) :
    (write_u16 (espnow_packet_fill sp salt data) 11 crc).getD 11 0 = crc % 256 := by
  simp [espnow_packet_fill, write_u16]

theorem packet_sealed_getD_hi (sp : espnow_send_param_t) (salt crc : Nat) (data : List Nat) :
    (write_u16 (espnow_packet_fill sp salt data) 11 crc).getD 12 0 = crc / 256 % 256 := by
  simp [espnow_packet_fill, write_u16]

theorem packet_sealed_getD_other (sp : espnow_send_param_t) (salt crc : Nat) (data : List Nat)
    (i : Nat) (h1 : i ≠ 11) (h2 : i ≠ 12) :
    (write_u16 (espnow_packet_fill sp salt data) 11 crc).getD i 0
      = (espnow_packet_fill sp salt data).getD i 0 := by
  unfold write_u16
  rw [getD_set_ne _ _ _ _ (by omega), getD_set_ne _ _ _ _ (by omega)]

/-- The outcome of `espnow_data_parse` on a packet of `espnow_payload_create`
in which the byte at position `i` has been replaced by a different byte. -/
theorem parse_packet_set (sp : espnow_send_param_t) (salt : Nat) (data : List Nat)
    (hdata : ∀ b ∈ data, b < 256) (i v : Nat)
    (hi : i < ESPNOW_HEADER_LEN + data.length) (hv : v < 256)
    (hne : v ≠ (write_u16 (espnow_packet_fill sp salt data) 11
        (esp_crc16_le 0xFFFF (espnow_packet_fill sp salt data))).getD i 0) :
    (espnow_data_parse ((write_u16 (espnow_packet_fill sp salt data) 11
        (esp_crc16_le 0xFFFF (espnow_packet_fill sp salt data))).set i v)).1
      = if data.length < read_u16 ((write_u16 (espnow_packet_fill sp salt data) 11
            (esp_crc16_le 0xFFFF (espnow_packet_fill sp salt data))).set i v) 9
        then parse_result.length_mismatch else parse_result.crc_mismatch := by
  have hC := esp_crc16_le_lt 0xFFFF (espnow_packet_fill sp salt data)
  have hF := packet_length sp salt data
  generalize hFd : espnow_packet_fill sp salt data = F at *
  generalize hCd : esp_crc16_le 0xFFFF F = C at *
  have hlenB : ((write_u16 F 11 C).set i v).length = ESPNOW_HEADER_LEN + data.length := by
    rw [List.length_set, write_u16_length, hF]
  have hshort : ¬ ((write_u16 F 11 C).set i v).length < ESPNOW_HEADER_LEN := by
    rw [hlenB]; omega
  unfold espnow_data_parse
  rw [if_neg hshort, hlenB, Nat.add_sub_cancel_left]
  by_cases hdecl : read_u16 ((write_u16 F 11 C).set i v) 9 > data.length
  · rw [if_pos hdecl, if_pos hdecl]
  · rw [if_neg hdecl, if_neg hdecl]
    have hbad : esp_crc16_le 0xFFFF (write_u16 ((write_u16 F 11 C).set i v) 11 0)
        ≠ read_u16 ((write_u16 F 11 C).set i v) 11 := by
      by_cases h11 : i = 11
      · subst h11
        have hclear : write_u16 ((write_u16 F 11 C).set 11 v) 11 0 = F := by
          rw [write_u16_set_lo, ← hFd, packet_sealed_clear]
        have hlo : (write_u16 F 11 C).getD 11 0 = C % 256 := by
          rw [← hFd, packet_sealed_getD_lo]
        have hhi : (write_u16 F 11 C).getD 12 0 = C / 256 % 256 := by
          rw [← hFd, packet_sealed_getD_hi]
        have hlen11 : 11 < (write_u16 F 11 C).length := by
          rw [write_u16_length, hF]; simp [ESPNOW_HEADER_LEN]; omega
        rw [hclear, hCd]
        unfold read_u16
        rw [getD_set_self _ _ _ hlen11, getD_set_ne _ _ _ _ (by omega), hhi]
        rw [hlo] at hne
        omega
      · by_cases h12 : i = 12
        · subst h12
          have hclear : write_u16 ((write_u16 F 11 C).set (11 + 1) v) 11 0 = F := by
            rw [write_u16_set_hi, ← hFd, packet_sealed_clear]
          have hlo : (write_u16 F 11 C).getD 11 0 = C % 256 := by
            rw [← hFd, packet_sealed_getD_lo]
          have hhi : (write_u16 F 11 C).getD 12 0 = C / 256 % 256 := by
            rw [← hFd, packet_sealed_getD_hi]
          have hlen12 : 12 < (write_u16 F 11 C).length := by
            rw [write_u16_length, hF]; simp [ESPNOW_HEADER_LEN]; omega
          rw [hclear, hCd]
          unfold read_u16
          rw [getD_set_ne _ _ _ _ (by omega), getD_set_self _ _ _ hlen12, hlo]
          rw [hhi] at hne
          omega
        · have hclear : write_u16 ((write_u16 F 11 C).set i v) 11 0 = F.set i v := by
            rw [write_u16_set_comm _ _ _ _ _ h11 h12, ← hFd, packet_sealed_clear]
          have hstored : read_u16 ((write_u16 F 11 C).set i v) 11 = C := by
            rw [read_u16_set_ne _ _ _ _ h11 h12, ← hFd, packet_sealed_crc]
            exact Nat.mod_eq_of_lt hC
          have hsame : (write_u16 F 11 C).getD i 0 = F.getD i 0 := by
            rw [← hFd, packet_sealed_getD_other _ _ _ _ _ h11 h12]
          have hb : F.getD i 0 < 256 := by
            rw [← hFd]; exact packet_bytes sp salt data hdata i
          rw [hclear, hstored, ← hCd]
          apply esp_crc16_le_set_ne
          · rw [hF]; exact hi
          · rw [hsame] at hne
            rw [Nat.mod_eq_of_lt hv, Nat.mod_eq_of_lt hb]
            exact hne
    simp only [ne_eq] at hbad ⊢
    rw [if_pos hbad]

/-! ## Claims on the frame codec -/

/-- C1 (as stated, refuted): for a payload of 65536 bytes the buffer built by
`espnow_payload_create` is accepted by `espnow_data_parse`, but the parsed frame
has `len = 0` and an empty payload: the 16-bit length field cannot hold the
length of the payload. -/
theorem payload_roundtrip_fails_at_65536 :
    ∃ buf frame,
      (espnow_payload_create ⟨0, 1, 1, 0, ⟨1, 2, 3, 4, 5, 6⟩, none, 0⟩
          (List.replicate 65536 0) true 0).buffer = some buf
      ∧ (espnow_data_parse buf).1 = parse_result.ok frame
      ∧ frame.len = 0 ∧ frame.payload = []
      ∧ frame.len ≠ (List.replicate 65536 0).length
      ∧ frame.payload ≠ List.replicate 65536 0 := by
  have hlen : (List.replicate 65536 0).length % 65536 = 0 := by
    rw [List.length_replicate]
  have hp := parse_packet ⟨0, 1, 1, 0, ⟨1, 2, 3, 4, 5, 6⟩, none, 0⟩ 0 (List.replicate 65536 0)
  rw [hlen, List.take_zero] at hp
  refine ⟨_, _, ?_, congrArg Prod.fst hp, rfl, rfl, ?_, ?_⟩
  · simp only [espnow_payload_create, if_true]
  · rw [List.length_replicate]; decide
  · intro h
    have h2 := congrArg List.length h
    rw [List.length_replicate] at h2
    exact absurd h2 (by decide)

/-- C1 (amended): for every one-byte frame type `T = sp.type`, every payload `P`
of fewer than 65536 bytes, and any ack flag, broadcast flag, sequence number and
salt, the buffer built by `espnow_payload_create` is accepted by
`espnow_data_parse` (which leaves the buffer as it was), and the parsed frame
carries exactly type `T`, exactly the payload `P`, and `len = P.length`. -/
theorem payload_roundtrip (sp : espnow_send_param_t) (P : List Nat) (salt : Nat)
    (hT : sp.type < 256) (hP : P.length < 65536) :
    ∃ buf frame,
      (espnow_payload_create sp P true salt).buffer = some buf
      ∧ espnow_data_parse buf = (parse_result.ok frame, buf)
      ∧ frame.type = sp.type ∧ frame.payload = P ∧ frame.len = P.length := by
  refine ⟨_, _, ?_, parse_packet sp salt P, ?_, ?_, ?_⟩
  · simp only [espnow_payload_create, if_true]
  · exact Nat.mod_eq_of_lt hT
  · simp [Nat.mod_eq_of_lt hP]
  · exact Nat.mod_eq_of_lt hP

/-- Witness of `payload_roundtrip`: type 7, payload `[65, 66]`. -/
theorem payload_roundtrip_witness :
    (7 : Nat) < 256 ∧ [65, 66].length < 65536 ∧
    ∃ buf frame,
      (espnow_payload_create ⟨1, 7, 1, 4660, ⟨1, 2, 3, 4, 5, 6⟩, none, 0⟩ [65, 66] true
          3735928559).buffer = some buf
      ∧ espnow_data_parse buf = (parse_result.ok frame, buf)
      ∧ frame.type = 7 ∧ frame.payload = [65, 66] ∧ frame.len = [65, 66].length :=
  ⟨by decide, by decide,
    payload_roundtrip ⟨1, 7, 1, 4660, ⟨1, 2, 3, 4, 5, 6⟩, none, 0⟩ [65, 66] 3735928559
      (by decide) (by decide)⟩

/-- C2 (as stated, refuted): in the frame built for an empty payload, replacing
the low byte of the length field (offset 9, value 0) by 1 makes
`espnow_data_parse` fail with the length-mismatch error, not the CRC-mismatch
error: the length is checked before the checksum. -/
theorem corrupt_len_gives_length_mismatch :
    (espnow_payload_create ⟨0, 1, 1, 0, ⟨1, 2, 3, 4, 5, 6⟩, none, 0⟩ [] true 0).buffer
        = some [0, 0, 0, 0, 0, 1, 1, 0, 0, 0, 0, 149, 225]
      ∧ espnow_data_parse ([0, 0, 0, 0, 0, 1, 1, 0, 0, 0, 0, 149, 225].set 9 1)
        = (parse_result.length_mismatch, [0, 0, 0, 0, 0, 1, 1, 0, 0, 1, 0, 149, 225])
      ∧ (espnow_data_parse ([0, 0, 0, 0, 0, 1, 1, 0, 0, 0, 0, 149, 225].set 9 1)).1
        ≠ parse_result.crc_mismatch := by
  refine ⟨by rfl, by rfl, ?_⟩
  intro h
  have h2 : (espnow_data_parse ([0, 0, 0, 0, 0, 1, 1, 0, 0, 0, 0, 149, 225].set 9 1)).1
      = parse_result.length_mismatch := by rfl
  rw [h2] at h
  cases h

/-- C2 (amended): for every frame produced by `espnow_payload_create` (payload
bytes below 256) and every byte position of that frame, replacing that one byte
by any different byte makes `espnow_data_parse` fail: with the length-mismatch
error when the replaced byte raises the declared payload length above the number
of bytes that follow the header, and with the CRC-mismatch error otherwise; a
replacement outside the length field (offsets 9 and 10) always gives the
CRC-mismatch error. -/
theorem corrupt_byte_rejected (sp : espnow_send_param_t) (P : List Nat) (salt : Nat)
    (buf : List Nat) (i v : Nat)
    (hP : ∀ b ∈ P, b < 256)
    (hbuf : (espnow_payload_create sp P true salt).buffer = some buf)
    (hi : i < buf.length) (hv : v < 256) (hne : v ≠ buf.getD i 0) :
    (espnow_data_parse (buf.set i v)).1
        = (if buf.length - ESPNOW_HEADER_LEN < read_u16 (buf.set i v) 9
            then parse_result.length_mismatch else parse_result.crc_mismatch)
      ∧ (i ≠ 9 → i ≠ 10 → (espnow_data_parse (buf.set i v)).1 = parse_result.crc_mismatch) := by
  have hb : buf = write_u16 (espnow_packet_fill sp salt P) 11
      (esp_crc16_le 0xFFFF (espnow_packet_fill sp salt P)) := by
    simp only [espnow_payload_create, if_true, Option.some.injEq] at hbuf
    exact hbuf.symm
  subst hb
  have hlen : (write_u16 (espnow_packet_fill sp salt P) 11
      (esp_crc16_le 0xFFFF (espnow_packet_fill sp salt P))).length
        = ESPNOW_HEADER_LEN + P.length := by
    rw [write_u16_length, packet_length]
  rw [hlen] at hi
  have key := parse_packet_set sp salt P hP i v hi hv hne
  rw [hlen, Nat.add_sub_cancel_left]
  refine ⟨key, ?_⟩
  intro h9 h10
  rw [key, read_u16_set_ne _ _ _ _ h9 h10, packet_sealed_len]
  have := Nat.mod_le P.length 65536
  rw [if_neg (by omega)]

/-- Witness of `corrupt_byte_rejected`: the salt byte at offset 2 of the frame
for payload `[65, 66]` replaced by 99. -/
theorem corrupt_byte_rejected_witness :
    (espnow_data_parse ([1, 239, 190, 173, 222, 7, 1, 52, 18, 2, 0, 128, 255, 65, 66].set 2
        99)).1
        = (if [1, 239, 190, 173, 222, 7, 1, 52, 18, 2, 0, 128, 255, 65, 66].length
              - ESPNOW_HEADER_LEN
              < read_u16 ([1, 239, 190, 173, 222, 7, 1, 52, 18, 2, 0, 128, 255, 65, 66].set 2
                  99) 9
            then parse_result.length_mismatch else parse_result.crc_mismatch)
      ∧ ((2 : Nat) ≠ 9 → (2 : Nat) ≠ 10 →
          (espnow_data_parse ([1, 239, 190, 173, 222, 7, 1, 52, 18, 2, 0, 128, 255, 65, 66].set
            2 99)).1 = parse_result.crc_mismatch) :=
  corrupt_byte_rejected ⟨1, 7, 1, 4660, ⟨1, 2, 3, 4, 5, 6⟩, none, 0⟩ [65, 66] 3735928559
    [1, 239, 190, 173, 222, 7, 1, 52, 18, 2, 0, 128, 255, 65, 66] 2 99
    (by decide) (by rfl) (by decide) (by decide) (by decide)

/-- C3 (code defect): `espnow_data_parse` accepts a 14-byte buffer whose header
declares a payload length of 0 although one byte follows the header: the guard
compares with `>` where the logged condition is `!=`.  The accepted frame has
`len = 0`, which differs from the remainder `14 - 13 = 1`. -/
theorem parse_accepts_shorter_declared_len :
    espnow_data_parse [0, 0, 0, 0, 0, 1, 1, 0, 0, 0, 0, 48, 96, 65]
        = (parse_result.ok ⟨0, 0, 1, 1, 0, 0, 24624, []⟩,
            [0, 0, 0, 0, 0, 1, 1, 0, 0, 0, 0, 48, 96, 65])
      ∧ read_u16 [0, 0, 0, 0, 0, 1, 1, 0, 0, 0, 0, 48, 96, 65] 9
        ≠ [0, 0, 0, 0, 0, 1, 1, 0, 0, 0, 0, 48, 96, 65].length - ESPNOW_HEADER_LEN := by
  refine ⟨by rfl, by decide⟩

/-- C4: on every buffer shorter than the frame header, whatever its bytes,
`espnow_data_parse` fails with the too-short error (and leaves the buffer as it
was). -/
theorem parse_too_short (data : List Nat) (h : data.length < ESPNOW_HEADER_LEN) :
    espnow_data_parse data = (parse_result.too_short, data) := by
  unfold espnow_data_parse
  rw [if_pos h]

/-- Witness of `parse_too_short`: a 12-byte buffer. -/
theorem parse_too_short_witness :
    [1, 2, 3, 4, 5, 6, 7, 8, 9, 10, 11, 12].length < ESPNOW_HEADER_LEN
      ∧ espnow_data_parse [1, 2, 3, 4, 5, 6, 7, 8, 9, 10, 11, 12]
        = (parse_result.too_short, [1, 2, 3, 4, 5, 6, 7, 8, 9, 10, 11, 12]) :=
  ⟨by decide, parse_too_short [1, 2, 3, 4, 5, 6, 7, 8, 9, 10, 11, 12] (by decide)⟩

/-- C5: on every buffer of at least header size whose declared payload length
exceeds the number of bytes after the header, `espnow_data_parse` fails with the
length-mismatch error, and it does so whatever the checksum field holds:
overwriting the stored checksum with any value `c` gives the same error. -/
theorem parse_len_exceeds (data : List Nat) (h1 : ESPNOW_HEADER_LEN ≤ data.length)
    (h2 : read_u16 data 9 > data.length - ESPNOW_HEADER_LEN) :
    espnow_data_parse data = (parse_result.length_mismatch, data)
      ∧ ∀ c : Nat, espnow_data_parse (write_u16 data 11 c)
          = (parse_result.length_mismatch, write_u16 data 11 c) := by
  constructor
  · unfold espnow_data_parse
    rw [if_neg (by omega), if_pos h2]
  · intro c
    unfold espnow_data_parse
    rw [write_u16_length, if_neg (by omega),
      read_u16_write_u16_ne _ _ _ _ (by omega) (by omega) (by omega) (by omega), if_pos h2]

/-- Witness of `parse_len_exceeds`: a 14-byte buffer declaring 2 payload bytes. -/
theorem parse_len_exceeds_witness :
    ESPNOW_HEADER_LEN ≤ [0, 0, 0, 0, 0, 1, 1, 0, 0, 2, 0, 48, 96, 65].length
      ∧ (espnow_data_parse [0, 0, 0, 0, 0, 1, 1, 0, 0, 2, 0, 48, 96, 65]
          = (parse_result.length_mismatch, [0, 0, 0, 0, 0, 1, 1, 0, 0, 2, 0, 48, 96, 65])
        ∧ ∀ c : Nat, espnow_data_parse (write_u16 [0, 0, 0, 0, 0, 1, 1, 0, 0, 2, 0, 48, 96, 65] 11 c)
          = (parse_result.length_mismatch,
              write_u16 [0, 0, 0, 0, 0, 1, 1, 0, 0, 2, 0, 48, 96, 65] 11 c)) :=
  ⟨by decide, parse_len_exceeds [0, 0, 0, 0, 0, 1, 1, 0, 0, 2, 0, 48, 96, 65] (by decide)
    (by decide)⟩

/-! ## Peer table: lookup and insertion -/

theorem esp_mac_check_equals_iff (a b : mac_t) : esp_mac_check_equals a b = true ↔ a = b := by
  cases a; cases b
  simp only [esp_mac_check_equals, mac_t.mk.injEq]
  constructor
  · intro h
    split_ifs at h
    simp_all
  · rintro ⟨h0, h1, h2, h3, h4, h5⟩
    simp [h0, h1, h2, h3, h4, h5]

theorem mac_lookup_from_none (mac : mac_t) (es : List esp_peer_t) (i : Nat) :
    mac_lookup_from mac es i = none ↔ ∀ p ∈ es, p.mac ≠ mac := by
  induction es generalizing i with
  | nil => simp [mac_lookup_from]
  | cons p ps ih =>
    unfold mac_lookup_from
    by_cases h : esp_mac_check_equals p.mac mac = true
    · have hm := (esp_mac_check_equals_iff _ _).1 h
      rw [if_pos h]
      simp [hm]
    · have hne : p.mac ≠ mac := fun e => h ((esp_mac_check_equals_iff _ _).2 e)
      simp [h, ih, hne]

theorem mac_lookup_from_some (mac : mac_t) (es : List esp_peer_t) (i j : Nat)
    (h : mac_lookup_from mac es i = some j) :
    i ≤ j ∧ j - i < es.length ∧ ∃ p, es[j - i]? = some p ∧ p.mac = mac := by
  induction es generalizing i with
  | nil => simp [mac_lookup_from] at h
  | cons q qs ih =>
    unfold mac_lookup_from at h
    by_cases hq : esp_mac_check_equals q.mac mac = true
    · rw [if_pos hq] at h
      have hj : i = j := by simpa using h
      subst hj
      exact ⟨le_refl _, by simp, q, by simp, (esp_mac_check_equals_iff _ _).1 hq⟩
    · rw [if_neg hq] at h
      obtain ⟨h1, h2, p, hp, hm⟩ := ih (i + 1) h
      have hji : j - i = (j - (i + 1)) + 1 := by omega
      refine ⟨by omega, by simp; omega, p, ?_, hm⟩
      rw [hji, List.getElem?_cons_succ]
      exact hp

theorem mac_lookup_from_append_new (mac : mac_t) (es : List esp_peer_t) (p : esp_peer_t)
    (i : Nat) (h : mac_lookup_from mac es i = none) (hp : p.mac = mac) :
    mac_lookup_from mac (es ++ [p]) i = some (i + es.length) := by
  induction es generalizing i with
  | nil =>
    simp [mac_lookup_from, (esp_mac_check_equals_iff p.mac mac).2 hp]
  | cons q qs ih =>
    unfold mac_lookup_from at h
    by_cases hq : esp_mac_check_equals q.mac mac = true
    · rw [if_pos hq] at h; cases h
    · rw [if_neg hq] at h
      rw [List.cons_append]
      unfold mac_lookup_from
      rw [if_neg hq, ih (i + 1) h, List.length_cons]
      congr 1
      omega

/-! ## Claims on the peer table -/

theorem add_to_entry_found (env : Env) (s : espnow_state) (mac : mac_t) (es : List esp_peer_t)
    (j : Nat) (hes : s.handle.entries = some es)
    (hj : esp_connection_mac_lookup s.handle mac = some j) :
    esp_connection_mac_add_to_entry env s mac = (some j, s) := by
  unfold esp_connection_mac_add_to_entry
  simp only [hes, hj]

theorem add_to_entry_absent (env : Env) (s : espnow_state) (mac : mac_t) (es : List esp_peer_t)
    (hes : s.handle.entries = some es)
    (habs : esp_connection_mac_lookup s.handle mac = none)
    (hok : env.malloc_ok s.calls = true) :
    esp_connection_mac_add_to_entry env s mac
      = (some es.length,
          { s with
            handle := { s.handle with
              entries := some (es ++ [esp_connection_peer_init (env.heap_content s.calls) mac
                (env.esp_timer_get_time (s.calls + 1)) (env.esp_timer_get_time (s.calls + 2))]) }
            calls := s.calls + 3 }) := by
  unfold esp_connection_mac_add_to_entry
  simp only [hes, habs, hok, if_true]

theorem add_repeated_found (env : Env) (mac : mac_t) (es : List esp_peer_t) (j : Nat) (n : Nat)
    (s : espnow_state) (hes : s.handle.entries = some es)
    (hj : esp_connection_mac_lookup s.handle mac = some j) :
    add_repeated env mac n s = List.replicate n (some j, es.length) := by
  induction n with
  | zero => rfl
  | succ n ih =>
    unfold add_repeated
    rw [add_to_entry_found env s mac es j hes hj, ih, List.replicate_succ]
    simp [esp_connection_handle_t.size, hes]

/-- C6: lookup-or-insert is idempotent.  For every allocated peer table, every
address and every number `N` of successive calls of
`esp_connection_mac_add_to_entry` with that address (no allocation failure):
if the address is present at position `j`, every call returns position `j` and
the size after every call is the initial size; if the address is absent, every
call returns the same position (the initial size), and the size after the first
call and after every later call is the initial size plus 1. -/
theorem add_to_entry_idempotent (env : Env) (s : espnow_state) (mac : mac_t)
    (es : List esp_peer_t) (N : Nat)
    (hes : s.handle.entries = some es) (halloc : ∀ k, env.malloc_ok k = true) :
    (∀ j, esp_connection_mac_lookup s.handle mac = some j →
        add_repeated env mac N s = List.replicate N (some j, es.length))
    ∧ (esp_connection_mac_lookup s.handle mac = none →
        add_repeated env mac N s = List.replicate N (some es.length, es.length + 1)) := by
  constructor
  · intro j hj
    exact add_repeated_found env mac es j N s hes hj
  · intro habs
    cases N with
    | zero => rfl
    | succ n =>
      unfold add_repeated
      rw [add_to_entry_absent env s mac es hes habs (halloc _), List.replicate_succ]
      have hlook : mac_lookup_from mac es 0 = none := by
        simpa [esp_connection_mac_lookup, hes] using habs
      have hnew := mac_lookup_from_append_new mac es
        (esp_connection_peer_init (env.heap_content s.calls) mac
          (env.esp_timer_get_time (s.calls + 1)) (env.esp_timer_get_time (s.calls + 2)))
        0 hlook rfl
      rw [add_repeated_found env mac _ es.length n _ rfl
        (by simpa [esp_connection_mac_lookup] using hnew)]
      simp [esp_connection_handle_t.size]

/-- Witness of `add_to_entry_idempotent`: three calls with a new address on the
empty table return position 0 each time, and the size is 1 after each. -/
theorem add_to_entry_idempotent_witness :
    add_repeated (sample_env 0 true) ⟨1, 2, 3, 4, 5, 6⟩ 3 (sample_state [])
      = List.replicate 3 (some 0, 1) :=
  (add_to_entry_idempotent (sample_env 0 true) (sample_state []) ⟨1, 2, 3, 4, 5, 6⟩ [] 3 rfl
    (fun _ => rfl)).2 rfl

/-- C7: when `esp_connection_mac_add_to_entry` is called with an address that
is not in the table and returns a record, at a time when the clock reads `now`,
the returned record has that address, status `UNKNOWN`, both
`lastseen_broadcast_us` and `lastseen_unicast_us` equal to `now`, and `seq_tx`,
`seq_rx` and `conn_retry` equal to 0. -/
theorem add_to_entry_initial_record (env : Env) (s : espnow_state) (mac : mac_t)
    (now : Int) (idx : Nat)
    (habs : esp_connection_mac_lookup s.handle mac = none)
    (hret : (esp_connection_mac_add_to_entry env s mac).1 = some idx)
    (hclock : ∀ k, env.esp_timer_get_time k = now) :
    ∃ peer, (esp_connection_mac_add_to_entry env s mac).2.get_peer idx = some peer
      ∧ peer.mac = mac
      ∧ peer.status = esp_peer_status_t.UNKNOWN
      ∧ peer.lastseen_broadcast_us = now
      ∧ peer.lastseen_unicast_us = now
      ∧ peer.seq_tx = 0 ∧ peer.seq_rx = 0 ∧ peer.conn_retry = 0 := by
  cases hes : s.handle.entries with
  | none =>
    simp [esp_connection_mac_add_to_entry, hes] at hret
  | some es =>
    cases hok : env.malloc_ok s.calls with
    | false =>
      simp [esp_connection_mac_add_to_entry, hes, habs, hok] at hret
    | true =>
      rw [add_to_entry_absent env s mac es hes habs hok] at hret ⊢
      have hidx : es.length = idx := by simpa using hret
      subst hidx
      refine ⟨esp_connection_peer_init (env.heap_content s.calls) mac
        (env.esp_timer_get_time (s.calls + 1)) (env.esp_timer_get_time (s.calls + 2)), ?_, ?_⟩
      · simp [espnow_state.get_peer]
      · simp [esp_connection_peer_init, hclock]

/-- Witness of `add_to_entry_initial_record`: a new address added to a table
of one record while the clock reads 5000. -/
theorem add_to_entry_initial_record_witness :
    ∃ peer,
      (esp_connection_mac_add_to_entry (sample_env 5000 true)
          (sample_state [sample_peer 9 esp_peer_status_t.CONNECTED 4 5 7])
          ⟨1, 2, 3, 4, 5, 6⟩).2.get_peer 1 = some peer
      ∧ peer.mac = ⟨1, 2, 3, 4, 5, 6⟩
      ∧ peer.status = esp_peer_status_t.UNKNOWN
      ∧ peer.lastseen_broadcast_us = 5000
      ∧ peer.lastseen_unicast_us = 5000
      ∧ peer.seq_tx = 0 ∧ peer.seq_rx = 0 ∧ peer.conn_retry = 0 :=
  add_to_entry_initial_record (sample_env 5000 true)
    (sample_state [sample_peer 9 esp_peer_status_t.CONNECTED 4 5 7])
    ⟨1, 2, 3, 4, 5, 6⟩ 5000 1 (by rfl) (by rfl) (fun _ => rfl)

/-! ## Reconciliation pass: what the send path leaves untouched -/

theorem map_set_same {α β : Type} (f : α → β) (l : List α) (i : Nat) (p q : α)
    (h : l[i]? = some p) (hv : f q = f p) : (l.set i q).map f = l.map f := by
  apply List.ext_getElem?
  intro k
  rw [List.getElem?_map, List.getElem?_map, List.getElem?_set]
  by_cases hik : i = k
  · subst hik
    have hlt : i < l.length := by
      rcases List.getElem?_eq_some.1 h with ⟨hl, _⟩
      exact hl
    simp [hlt, h, hv]
  · simp [hik]

theorem send_data_seq_entries (env : Env) (s : espnow_state) (sp : espnow_send_param_t)
    (es : List esp_peer_t) (hes : s.handle.entries = some es) :
    ∃ es2, (espnow_send_data_seq env s sp).2.handle.entries = some es2
      ∧ es2.map peer_view = es.map peer_view := by
  unfold espnow_send_data_seq
  by_cases hreg : s.handle_registered = true
  · cases hl : esp_connection_mac_lookup s.handle sp.dest_mac with
    | none => exact ⟨es, by simp [hreg, hl, hes], rfl⟩
    | some i =>
      cases hg : s.get_peer i with
      | none => exact ⟨es, by simp [hreg, hl, hg, hes], rfl⟩
      | some peer =>
        have hgi : es[i]? = some peer := by
          simpa [espnow_state.get_peer, hes] using hg
        refine ⟨es.set i { peer with
            seq_tx := (peer.seq_tx + 1) % 65536
            lastsent_unicast_us := env.esp_timer_get_time s.calls }, ?_, ?_⟩
        · simp [hreg, hl, hg, espnow_state.set_peer, hes]
        · exact map_set_same peer_view es i peer _ hgi rfl
  · exact ⟨es, by simp [hreg, hes], rfl⟩

theorem send_data_seq_sent (env : Env) (s : espnow_state) (sp : espnow_send_param_t) :
    (espnow_send_data_seq env s sp).2.sent = s.sent
      ∧ (espnow_send_data_seq env s sp).1.dest_mac = sp.dest_mac
      ∧ (espnow_send_data_seq env s sp).1.broadcast = sp.broadcast := by
  unfold espnow_send_data_seq
  by_cases hreg : s.handle_registered = true
  · cases hl : esp_connection_mac_lookup s.handle sp.dest_mac with
    | none => simp [hreg, hl]
    | some i =>
      cases hg : s.get_peer i with
      | none => simp [hreg, hl, hg]
      | some peer =>
        cases hes : s.handle.entries with
        | none => simp [hreg, hl, hg, espnow_state.set_peer, hes]
        | some es => simp [hreg, hl, hg, espnow_state.set_peer, hes]
  · simp [hreg]

theorem send_data_entries (H : espnow_h) (env : Env) (s : espnow_state)
    (sp : espnow_send_param_t) (ty : Nat) (data : List Nat)
    (es : List esp_peer_t) (hes : s.handle.entries = some es) :
    ∃ es2, (espnow_send_data H env s sp ty data).2.2.handle.entries = some es2
      ∧ es2.map peer_view = es.map peer_view := by
  obtain ⟨es2, h1, h2⟩ := send_data_seq_entries env s sp es hes
  refine ⟨es2, ?_, h2⟩
  unfold espnow_send_data
  simp only []
  split <;> exact h1

theorem send_data_seq_descriptor (env : Env) (s : espnow_state) (sp : espnow_send_param_t) :
    ∃ seq, (espnow_send_data_seq env s sp).1 = { sp with seq_num := seq } := by
  unfold espnow_send_data_seq
  by_cases hreg : s.handle_registered = true
  · cases hl : esp_connection_mac_lookup s.handle sp.dest_mac with
    | none => exact ⟨s.espnow_seq_tx, by simp [hreg, hl]⟩
    | some i =>
      cases hg : s.get_peer i with
      | none => exact ⟨s.espnow_seq_tx, by simp [hreg, hl, hg]⟩
      | some peer => exact ⟨peer.seq_tx, by simp [hreg, hl, hg]⟩
  · exact ⟨s.espnow_seq_tx, by simp [hreg]⟩

/-- With a successful allocation, `espnow_send_data` hands exactly one frame to
the radio: the frame `espnow_payload_create` builds for the descriptor with the
requested type and some sequence number and salt, addressed to `dest_mac`. -/
theorem send_data_sent_ok (H : espnow_h) (env : Env) (s : espnow_state)
    (sp : espnow_send_param_t) (ty : Nat) (data : List Nat)
    (hok : ∀ k, env.malloc_ok k = true) :
    ∃ seq salt buf,
      (espnow_payload_create
          { ack := H.ESPNOW_PARAM_ACK_NACK, type := ty, broadcast := sp.broadcast,
            seq_num := seq, dest_mac := sp.dest_mac, buffer := sp.buffer, len := sp.len }
          data true salt).buffer = some buf
      ∧ (espnow_send_data H env s sp ty data).2.2.sent = s.sent ++ [(sp.dest_mac, buf)] := by
  obtain ⟨seq, hseq⟩ := send_data_seq_descriptor env s sp
  obtain ⟨hsent, _, _⟩ := send_data_seq_sent env s sp
  refine ⟨seq, env.esp_random ((espnow_send_data_seq env s sp).2.calls + 1), _, rfl, ?_⟩
  unfold espnow_send_data
  simp only [hseq, hok, espnow_payload_create, if_true, hsent]

/-- When the allocation of the buffer fails, `espnow_send_data` hands nothing
to the radio. -/
theorem send_data_sent_fail (H : espnow_h) (env : Env) (s : espnow_state)
    (sp : espnow_send_param_t) (ty : Nat) (data : List Nat)
    (hfail : ∀ k, env.malloc_ok k = false) :
    (espnow_send_data H env s sp ty data).2.2.sent = s.sent := by
  obtain ⟨hsent, _, _⟩ := send_data_seq_sent env s sp
  unfold espnow_send_data
  simp only [hfail, espnow_payload_create, Bool.false_eq_true, if_false, hsent]

/-! ## Reconciliation pass: one iteration of the loop -/

theorem get_peer_eq (s : espnow_state) (es : List esp_peer_t) (i : Nat)
    (hes : s.handle.entries = some es) : s.get_peer i = es[i]? := by
  simp [espnow_state.get_peer, hes]

theorem set_peer_entries (s : espnow_state) (es : List esp_peer_t) (i : Nat) (p : esp_peer_t)
    (hes : s.handle.entries = some es) :
    (s.set_peer i p).handle.entries = some (es.set i p) := by
  simp [espnow_state.set_peer, hes]

theorem set_peer_sent (s : espnow_state) (i : Nat) (p : esp_peer_t) :
    (s.set_peer i p).sent = s.sent := by
  unfold espnow_state.set_peer
  split <;> rfl

theorem update_peer_available (H : espnow_h) (env : Env) (s : espnow_state) (i : Nat)
    (p : esp_peer_t) (hp : s.get_peer i = some p)
    (hst : p.status = esp_peer_status_t.AVAILABLE) :
    esp_connection_handle_update_peer H env s i
      = (match
          (espnow_send_data H env
            (({ s with calls := s.calls + 1 }).set_peer i
              { p with connect_time_us := env.esp_timer_get_time s.calls })
            (espnow_get_send_param_unicast H (espnow_default_send_param H) p.mac)
            H.ESP_PEER_PACKET_CONNECT []).2.2.get_peer i with
        | none =>
          (espnow_send_data H env
            (({ s with calls := s.calls + 1 }).set_peer i
              { p with connect_time_us := env.esp_timer_get_time s.calls })
            (espnow_get_send_param_unicast H (espnow_default_send_param H) p.mac)
            H.ESP_PEER_PACKET_CONNECT []).2.2
        | some peer2 =>
          (espnow_send_data H env
            (({ s with calls := s.calls + 1 }).set_peer i
              { p with connect_time_us := env.esp_timer_get_time s.calls })
            (espnow_get_send_param_unicast H (espnow_default_send_param H) p.mac)
            H.ESP_PEER_PACKET_CONNECT []).2.2.set_peer i
              (esp_peer_set_status peer2 esp_peer_status_t.CONNECTING)) := by
  unfold esp_connection_handle_update_peer
  simp only [hp, hst]

theorem update_peer_entries (H : espnow_h) (env : Env) (s : espnow_state) (i : Nat)
    (es : List esp_peer_t) (p : esp_peer_t) (now : Int)
    (hes : s.handle.entries = some es) (hp : es[i]? = some p)
    (hclock : ∀ k, env.esp_timer_get_time k = now) :
    ∃ es2, (esp_connection_handle_update_peer H env s i).handle.entries = some es2
      ∧ es2.map peer_view = (es.map peer_view).set i (peer_view (peer_step now p)) := by
  have hg : s.get_peer i = some p := by rw [get_peer_eq s es i hes]; exact hp
  have hsame : (es.map peer_view).set i (peer_view p) = es.map peer_view := by
    rw [← List.map_set]
    exact map_set_same peer_view es i p p hp rfl
  cases hst : p.status
  case AVAILABLE =>
    rw [update_peer_available H env s i p hg hst]
    have hes1 : (({ s with calls := s.calls + 1 } : espnow_state).set_peer i
        { p with connect_time_us := env.esp_timer_get_time s.calls }).handle.entries
          = some (es.set i { p with connect_time_us := env.esp_timer_get_time s.calls }) :=
      set_peer_entries _ es i _ hes
    obtain ⟨es2, h2, hv2⟩ := send_data_entries H env _
      (espnow_get_send_param_unicast H (espnow_default_send_param H) p.mac)
      H.ESP_PEER_PACKET_CONNECT [] _ hes1
    have hlt : i < es.length := (List.getElem?_eq_some.1 hp).1
    have hlen : es2.length = es.length := by
      have := congrArg List.length hv2
      simpa using this
    have hlt2 : i < es2.length := by omega
    have hview : peer_view es2[i]
        = peer_view { p with connect_time_us := env.esp_timer_get_time s.calls } := by
      have h := congrArg (fun l => l[i]?) hv2
      simp only [List.getElem?_map, List.getElem?_set, hlt, if_true] at h
      rw [List.getElem?_eq_getElem hlt2] at h
      simpa using h
    rw [get_peer_eq _ es2 i h2, List.getElem?_eq_getElem hlt2]
    refine ⟨es2.set i (esp_peer_set_status es2[i] esp_peer_status_t.CONNECTING), ?_, ?_⟩
    · exact set_peer_entries _ es2 i _ h2
    · rw [List.map_set, hv2, List.map_set, List.set_set]
      congr 1
      simp only [peer_view, esp_peer_set_status, peer_step, hst, Prod.mk.injEq] at hview ⊢
      obtain ⟨h1, _, h3, h4, h5⟩ := hview
      exact ⟨h1, trivial, h3, h4, by rw [h5, hclock]⟩
  all_goals
    unfold esp_connection_handle_update_peer
    simp only [hg, hst, hclock, peer_step]
    first
      | exact ⟨es, hes, hsame.symm⟩
      | (split
         · refine ⟨_, set_peer_entries _ es i _ hes, ?_⟩
           rw [List.map_set]
           rfl
         · exact ⟨es, hes, hsame.symm⟩)

/-! ## Reconciliation pass: the loop -/

theorem peer_view_fields (q r : esp_peer_t) (h : peer_view q = peer_view r) :
    q.mac = r.mac ∧ q.status = r.status ∧ q.lastseen_broadcast_us = r.lastseen_broadcast_us
      ∧ q.lastseen_unicast_us = r.lastseen_unicast_us
      ∧ q.connect_time_us = r.connect_time_us := by
  simpa [peer_view] using h

theorem peer_step_view_congr (now : Int) (p q : esp_peer_t) (h : peer_view q = peer_view p) :
    peer_view (peer_step now q) = peer_view (peer_step now p) := by
  simp only [peer_view, Prod.mk.injEq] at h
  obtain ⟨h1, h2, h3, h4, h5⟩ := h
  unfold peer_step
  rw [h2, h3, h4, h5]
  cases p.status <;> simp only [] <;> (try split) <;> simp [peer_view, h1, h2, h3, h4, h5]

theorem update_iterations_succ (H : espnow_h) (env : Env) (s : espnow_state) (n : Nat) :
    update_iterations H env s (n + 1)
      = esp_connection_handle_update_peer H env (update_iterations H env s n) n := by
  unfold update_iterations
  rw [List.range_succ, List.foldl_append]
  rfl

/-- After the first `n` iterations of the loop, the records of index below `n`
have made their step and the others are as at the start (as far as the fields
of `peer_view` go). -/
theorem update_iterations_entries (H : espnow_h) (env : Env) (s : espnow_state)
    (es : List esp_peer_t) (now : Int) (hes : s.handle.entries = some es)
    (hclock : ∀ k, env.esp_timer_get_time k = now) (n : Nat) :
    ∃ es2, (update_iterations H env s n).handle.entries = some es2
      ∧ es2.length = es.length
      ∧ ∀ k p, es[k]? = some p → ∃ q, es2[k]? = some q
          ∧ peer_view q = if k < n then peer_view (peer_step now p) else peer_view p := by
  induction n with
  | zero =>
    refine ⟨es, hes, rfl, ?_⟩
    intro k p hk
    exact ⟨p, hk, by simp⟩
  | succ n ih =>
    obtain ⟨es2, h2, hlen, hpt⟩ := ih
    rw [update_iterations_succ]
    cases hn : es[n]? with
    | none =>
      have hn2 : es2[n]? = none := by
        rw [List.getElem?_eq_none_iff] at hn ⊢
        omega
      have hg : (update_iterations H env s n).get_peer n = none := by
        rw [get_peer_eq _ es2 n h2]; exact hn2
      have hskip : esp_connection_handle_update_peer H env (update_iterations H env s n) n
          = update_iterations H env s n := by
        unfold esp_connection_handle_update_peer
        simp only [hg]
      rw [hskip]
      refine ⟨es2, h2, hlen, ?_⟩
      intro k p hk
      obtain ⟨q, hq, hv⟩ := hpt k p hk
      refine ⟨q, hq, ?_⟩
      have hkn : k ≠ n := by
        intro e; subst e; rw [hn] at hk; cases hk
      have hklt : k < es.length := (List.getElem?_eq_some.1 hk).1
      have hnge : es.length ≤ n := List.getElem?_eq_none_iff.1 hn
      rw [hv, if_pos (by omega), if_pos (by omega)]
    | some pn =>
      obtain ⟨qn, hqn, hvn⟩ := hpt n pn hn
      rw [if_neg (by omega)] at hvn
      obtain ⟨es3, h3, hv3⟩ := update_peer_entries H env (update_iterations H env s n) n es2 qn now
        h2 hqn hclock
      have hlen3 : es3.length = es.length := by
        have := congrArg List.length hv3
        simp only [List.length_map, List.length_set] at this
        omega
      refine ⟨es3, h3, hlen3, ?_⟩
      intro k p hk
      have hklt : k < es.length := (List.getElem?_eq_some.1 hk).1
      have hklt3 : k < es3.length := by omega
      refine ⟨es3[k], List.getElem?_eq_getElem hklt3, ?_⟩
      have h := congrArg (fun l => l[k]?) hv3
      simp only [List.getElem?_map, List.getElem?_set, List.length_map] at h
      rw [List.getElem?_eq_getElem hklt3] at h
      obtain ⟨q, hq, hv⟩ := hpt k p hk
      by_cases hkn : n = k
      · subst hkn
        rw [hn] at hk
        cases hk
        rw [if_pos rfl, if_pos (by omega)] at h
        rw [if_pos (by omega)]
        simp only [Option.map_some', Option.some.injEq] at h
        rw [h]
        exact peer_step_view_congr now pn qn hvn
      · rw [if_neg hkn, hq] at h
        simp only [Option.map_some', Option.some.injEq] at h
        rw [h, hv]
        by_cases hlt : k < n
        · rw [if_pos hlt, if_pos (by omega)]
        · rw [if_neg hlt, if_neg (by omega)]

theorem update_get_peer (H : espnow_h) (env : Env) (s : espnow_state) (es : List esp_peer_t)
    (hes : s.handle.entries = some es) (i : Nat) :
    (esp_connection_handle_update H env s).get_peer i
      = (update_iterations H env s es.length).get_peer i := by
  unfold esp_connection_handle_update
  simp only [hes]
  rfl

theorem update_sent (H : espnow_h) (env : Env) (s : espnow_state) (es : List esp_peer_t)
    (hes : s.handle.entries = some es) :
    (esp_connection_handle_update H env s).sent = (update_iterations H env s es.length).sent := by
  unfold esp_connection_handle_update
  simp only [hes]

/-- One pass at clock reading `now` takes every record through `peer_step`,
as far as address, status and the time stamps of `peer_view` go. -/
theorem update_peer_view (H : espnow_h) (env : Env) (s : espnow_state)
    (es : List esp_peer_t) (now : Int) (i : Nat) (p : esp_peer_t)
    (hes : s.handle.entries = some es) (hp : es[i]? = some p)
    (hclock : ∀ k, env.esp_timer_get_time k = now) :
    ∃ q, (esp_connection_handle_update H env s).get_peer i = some q
      ∧ peer_view q = peer_view (peer_step now p) := by
  obtain ⟨es2, h2, _, hpt⟩ := update_iterations_entries H env s es now hes hclock es.length
  obtain ⟨q, hq, hv⟩ := hpt i p hp
  have hlt : i < es.length := (List.getElem?_eq_some.1 hp).1
  rw [if_pos hlt] at hv
  refine ⟨q, ?_, hv⟩
  rw [update_get_peer H env s es hes, get_peer_eq _ es2 i h2]
  exact hq

/-- At the start of iteration `i` the record `i` is as at the start of the
pass (as far as the fields of `peer_view` go). -/
theorem update_iterations_get_peer (H : espnow_h) (env : Env) (s : espnow_state)
    (es : List esp_peer_t) (now : Int) (i : Nat) (p : esp_peer_t)
    (hes : s.handle.entries = some es) (hp : es[i]? = some p)
    (hclock : ∀ k, env.esp_timer_get_time k = now) :
    ∃ q, (update_iterations H env s i).get_peer i = some q ∧ peer_view q = peer_view p := by
  obtain ⟨es2, h2, _, hpt⟩ := update_iterations_entries H env s es now hes hclock i
  obtain ⟨q, hq, hv⟩ := hpt i p hp
  rw [if_neg (by omega)] at hv
  exact ⟨q, by rw [get_peer_eq _ es2 i h2]; exact hq, hv⟩

/-! ## Reconciliation pass: frames handed to the radio in one iteration -/

theorem update_peer_sent_other (H : espnow_h) (env : Env) (s : espnow_state) (i : Nat)
    (q : esp_peer_t) (hq : s.get_peer i = some q)
    (hst : q.status ≠ esp_peer_status_t.AVAILABLE) :
    (esp_connection_handle_update_peer H env s i).sent = s.sent := by
  unfold esp_connection_handle_update_peer
  simp only [hq]
  cases h : q.status
  case AVAILABLE => exact absurd h hst
  all_goals
    first
      | rfl
      | (simp only []
         split
         · rw [set_peer_sent]
         · rfl)

theorem update_peer_sent_available (H : espnow_h) (env : Env) (s : espnow_state) (i : Nat)
    (q : esp_peer_t) (hq : s.get_peer i = some q)
    (hst : q.status = esp_peer_status_t.AVAILABLE)
    (hok : ∀ k, env.malloc_ok k = true) :
    ∃ seq salt buf,
      (espnow_payload_create
          { ack := H.ESPNOW_PARAM_ACK_NACK, type := H.ESP_PEER_PACKET_CONNECT,
            broadcast := H.ESPNOW_DATA_UNICAST, seq_num := seq, dest_mac := q.mac,
            buffer := none, len := 0 }
          [] true salt).buffer = some buf
      ∧ (esp_connection_handle_update_peer H env s i).sent = s.sent ++ [(q.mac, buf)] := by
  rw [update_peer_available H env s i q hq hst]
  obtain ⟨seq, salt, buf, hbuf, hsent⟩ := send_data_sent_ok H env
    (({ s with calls := s.calls + 1 } : espnow_state).set_peer i
      { q with connect_time_us := env.esp_timer_get_time s.calls })
    (espnow_get_send_param_unicast H (espnow_default_send_param H) q.mac)
    H.ESP_PEER_PACKET_CONNECT [] hok
  rw [set_peer_sent] at hsent
  refine ⟨seq, salt, buf, hbuf, ?_⟩
  split
  · exact hsent
  · rw [set_peer_sent]
    exact hsent

/-! ## Reconciliation pass: all frames handed to the radio -/

theorem send_data_sent_cases (H : espnow_h) (env : Env) (s : espnow_state)
    (sp : espnow_send_param_t) (ty : Nat) (data : List Nat) :
    (espnow_send_data H env s sp ty data).2.2.sent = s.sent
      ∨ ∃ buf, (espnow_send_data H env s sp ty data).2.2.sent = s.sent ++ [(sp.dest_mac, buf)] := by
  obtain ⟨hsent, hdest, _⟩ := send_data_seq_sent env s sp
  unfold espnow_send_data
  simp only []
  split
  · left; exact hsent
  · rename_i buffer hb
    right
    refine ⟨buffer, ?_⟩
    simp only [hsent]
    congr 3
    cases hm : env.malloc_ok (espnow_send_data_seq env s sp).2.calls <;>
      simp [espnow_payload_create, hm, hdest]

theorem update_peer_sent_cases (H : espnow_h) (env : Env) (s : espnow_state) (i : Nat)
    (q : esp_peer_t) (hq : s.get_peer i = some q) :
    (esp_connection_handle_update_peer H env s i).sent = s.sent
      ∨ (q.status = esp_peer_status_t.AVAILABLE
          ∧ ∃ buf, (esp_connection_handle_update_peer H env s i).sent
              = s.sent ++ [(q.mac, buf)]) := by
  by_cases hst : q.status = esp_peer_status_t.AVAILABLE
  · rw [update_peer_available H env s i q hq hst]
    have hc := send_data_sent_cases H env
      (({ s with calls := s.calls + 1 } : espnow_state).set_peer i
        { q with connect_time_us := env.esp_timer_get_time s.calls })
      (espnow_get_send_param_unicast H (espnow_default_send_param H) q.mac)
      H.ESP_PEER_PACKET_CONNECT []
    rw [set_peer_sent] at hc
    have hsame : ∀ t : espnow_state,
        (match t.get_peer i with
          | none => t
          | some peer2 => t.set_peer i
              (esp_peer_set_status peer2 esp_peer_status_t.CONNECTING)).sent = t.sent := by
      intro t
      split
      · rfl
      · rw [set_peer_sent]
    rw [hsame]
    rcases hc with h | ⟨buf, h⟩
    · left; exact h
    · right; exact ⟨hst, buf, h⟩
  · left
    exact update_peer_sent_other H env s i q hq hst

theorem update_iterations_skip (H : espnow_h) (env : Env) (s : espnow_state)
    (es : List esp_peer_t) (now : Int) (hes : s.handle.entries = some es)
    (hclock : ∀ k, env.esp_timer_get_time k = now) (n : Nat) (hn : es[n]? = none) :
    esp_connection_handle_update_peer H env (update_iterations H env s n) n
      = update_iterations H env s n := by
  obtain ⟨es2, h2, hlen, _⟩ := update_iterations_entries H env s es now hes hclock n
  have hn2 : es2[n]? = none := by
    rw [List.getElem?_eq_none_iff] at hn ⊢
    omega
  have hg : (update_iterations H env s n).get_peer n = none := by
    rw [get_peer_eq _ es2 n h2]; exact hn2
  unfold esp_connection_handle_update_peer
  simp only [hg]

/-- The frames handed to the radio during the first `n` iterations, when the
allocations succeed: one CONNECT frame for each of the first `n` records that
was `AVAILABLE` at the start, in table order, and nothing else. -/
theorem update_iterations_frames (H : espnow_h) (env : Env) (s : espnow_state)
    (es : List esp_peer_t) (now : Int) (hes : s.handle.entries = some es)
    (hclock : ∀ k, env.esp_timer_get_time k = now)
    (hok : ∀ k, env.malloc_ok k = true) (n : Nat) :
    ∃ F, (update_iterations H env s n).sent = s.sent ++ F
      ∧ List.Forall₂ (connect_frame_for H)
          ((es.take n).filter (fun p => decide (p.status = esp_peer_status_t.AVAILABLE))) F := by
  induction n with
  | zero => exact ⟨[], by simp [update_iterations], by simp⟩
  | succ n ih =>
    obtain ⟨F, hF, hrel⟩ := ih
    rw [update_iterations_succ, List.take_succ, List.filter_append]
    cases hn : es[n]? with
    | none =>
      rw [update_iterations_skip H env s es now hes hclock n hn]
      exact ⟨F, hF, by simpa using hrel⟩
    | some p =>
      obtain ⟨q, hq, hv⟩ := update_iterations_get_peer H env s es now n p hes hn hclock
      obtain ⟨hmac, hstq, _⟩ := peer_view_fields q p hv
      by_cases hst : p.status = esp_peer_status_t.AVAILABLE
      · obtain ⟨seq, salt, buf, hbuf, hsent⟩ := update_peer_sent_available H env
          (update_iterations H env s n) n q hq (by rw [hstq, hst]) hok
        rw [hmac] at hbuf hsent
        refine ⟨F ++ [(p.mac, buf)], ?_, ?_⟩
        · rw [hsent, hF, List.append_assoc]
        · apply List.rel_append hrel
          simp only [Option.toList, List.filter_cons, hst, decide_True, if_true, List.filter_nil]
          exact List.Forall₂.cons ⟨rfl, seq, salt, hbuf⟩ List.Forall₂.nil
      · refine ⟨F, ?_, ?_⟩
        · rw [update_peer_sent_other H env _ n q hq (by rw [hstq]; exact hst)]
          exact hF
        · simpa [Option.toList, List.filter_cons, hst] using hrel

/-- Every frame handed to the radio during the first `n` iterations is addressed
to a record that was `AVAILABLE` at the start of the pass. -/
theorem update_iterations_dests (H : espnow_h) (env : Env) (s : espnow_state)
    (es : List esp_peer_t) (now : Int) (hes : s.handle.entries = some es)
    (hclock : ∀ k, env.esp_timer_get_time k = now) (n : Nat) :
    ∃ F, (update_iterations H env s n).sent = s.sent ++ F
      ∧ ∀ f ∈ F, ∃ p ∈ es, p.status = esp_peer_status_t.AVAILABLE ∧ f.1 = p.mac := by
  induction n with
  | zero => exact ⟨[], by simp [update_iterations], by simp⟩
  | succ n ih =>
    obtain ⟨F, hF, hall⟩ := ih
    rw [update_iterations_succ]
    cases hn : es[n]? with
    | none =>
      rw [update_iterations_skip H env s es now hes hclock n hn]
      exact ⟨F, hF, hall⟩
    | some p =>
      obtain ⟨q, hq, hv⟩ := update_iterations_get_peer H env s es now n p hes hn hclock
      obtain ⟨hmac, hstq, _⟩ := peer_view_fields q p hv
      rcases update_peer_sent_cases H env (update_iterations H env s n) n q hq with
        h | ⟨hst, buf, h⟩
      · exact ⟨F, by rw [h]; exact hF, hall⟩
      · refine ⟨F ++ [(q.mac, buf)], by rw [h, hF, List.append_assoc], ?_⟩
        intro f hf
        rcases List.mem_append.1 hf with hf | hf
        · exact hall f hf
        · have hfe : f = (q.mac, buf) := by simpa using hf
          subst hfe
          exact ⟨p, List.getElem?_mem hn, by rw [← hstq]; exact hst, hmac⟩

/-! ## Claims on the reconciliation pass -/

/-- C8: liveness timeout with its exact boundary.  In one
`esp_connection_handle_update` pass during which the clock reads `now`, a peer
that is `CONNECTED` at the start ends the pass `LOST` if and only if
`now - lastseen_unicast_us > 1,000,000`, and `CONNECTED` otherwise; so with
`lastseen_unicast_us = now - 1,000,001` it becomes `LOST` and with
`lastseen_unicast_us = now - 1,000,000` it stays `CONNECTED`.  Its
`lastseen_broadcast_us` plays no part. -/
theorem update_connected_timeout (H : espnow_h) (env : Env) (s : espnow_state)
    (es : List esp_peer_t) (now : Int) (i : Nat) (p : esp_peer_t)
    (hes : s.handle.entries = some es) (hp : es[i]? = some p)
    (hst : p.status = esp_peer_status_t.CONNECTED)
    (hclock : ∀ k, env.esp_timer_get_time k = now) :
    ∃ q, (esp_connection_handle_update H env s).get_peer i = some q
      ∧ (q.status = esp_peer_status_t.LOST ↔ now - p.lastseen_unicast_us > 1000000)
      ∧ (q.status = esp_peer_status_t.CONNECTED ↔ ¬ now - p.lastseen_unicast_us > 1000000)
      ∧ (p.lastseen_unicast_us = now - 1000001 → q.status = esp_peer_status_t.LOST)
      ∧ (p.lastseen_unicast_us = now - 1000000 → q.status = esp_peer_status_t.CONNECTED) := by
  obtain ⟨q, hq, hv⟩ := update_peer_view H env s es now i p hes hp hclock
  obtain ⟨_, hstq, _⟩ := peer_view_fields q _ hv
  have hstep : (peer_step now p).status
      = if now - p.lastseen_unicast_us > 1000000 then esp_peer_status_t.LOST
        else esp_peer_status_t.CONNECTED := by
    unfold peer_step
    simp only [hst, ONE_SECOND_IN_US]
    split <;> simp [hst]
  rw [hstep] at hstq
  refine ⟨q, hq, ?_, ?_, ?_, ?_⟩
  · rw [hstq]; split <;> simp [*]
  · rw [hstq]; split <;> simp [*]
  · intro h; rw [hstq, if_pos (by rw [h]; omega)]
  · intro h; rw [hstq, if_neg (by rw [h]; omega)]

/-- Witness of `update_connected_timeout`: at time 2,000,000, a `CONNECTED`
peer last heard at 999,999. -/
theorem update_connected_timeout_witness :
    ∃ q, (esp_connection_handle_update sample_h (sample_env 2000000 true)
        (sample_state [sample_peer 6 esp_peer_status_t.CONNECTED 1900000 999999 0])).get_peer 0
          = some q
      ∧ (q.status = esp_peer_status_t.LOST ↔ (2000000 : Int) - 999999 > 1000000)
      ∧ (q.status = esp_peer_status_t.CONNECTED ↔ ¬ (2000000 : Int) - 999999 > 1000000)
      ∧ ((999999 : Int) = 2000000 - 1000001 → q.status = esp_peer_status_t.LOST)
      ∧ ((999999 : Int) = 2000000 - 1000000 → q.status = esp_peer_status_t.CONNECTED) :=
  update_connected_timeout sample_h (sample_env 2000000 true)
    (sample_state [sample_peer 6 esp_peer_status_t.CONNECTED 1900000 999999 0])
    [sample_peer 6 esp_peer_status_t.CONNECTED 1900000 999999 0] 2000000 0
    (sample_peer 6 esp_peer_status_t.CONNECTED 1900000 999999 0) rfl rfl rfl (fun _ => rfl)

/-- C9 (as stated, refuted): when the allocation of the frame buffer fails, a
pass turns an `AVAILABLE` peer into `CONNECTING` and sets `connect_time_us`,
but no frame at all is handed to the radio. -/
theorem update_available_alloc_failure :
    (sample_state [sample_peer 6 esp_peer_status_t.AVAILABLE 1900000 1900000 0]).sent = []
      ∧ (esp_connection_handle_update sample_h (sample_env 2000000 false)
          (sample_state [sample_peer 6 esp_peer_status_t.AVAILABLE 1900000 1900000 0])).get_peer 0
        = some { mac := ⟨1, 2, 3, 4, 5, 6⟩, status := esp_peer_status_t.CONNECTING,
                 seq_tx := 1, seq_rx := 0, conn_retry := 0,
                 lastseen_broadcast_us := 1900000, lastseen_unicast_us := 1900000,
                 lastsent_unicast_us := 2000000, connect_time_us := 2000000 }
      ∧ (esp_connection_handle_update sample_h (sample_env 2000000 false)
          (sample_state [sample_peer 6 esp_peer_status_t.AVAILABLE 1900000 1900000 0])).sent
        = [] := by
  refine ⟨rfl, by rfl, by rfl⟩

/-- C9 (amended): in one `esp_connection_handle_update` pass during which the
clock reads `now`, every peer that is `AVAILABLE` at the start ends the pass
`CONNECTING` (not `NOREPLY`) with `connect_time_us = now`.  Provided the
allocations of the pass succeed, the frames handed to the radio during the pass
are, in table order, exactly one CONNECT frame for each peer that was
`AVAILABLE` at the start; the one for this peer is handed over in its own loop
iteration, is addressed to the peer, and is the frame `espnow_payload_create`
builds for a unicast descriptor of type CONNECT with empty payload (it decodes
to type CONNECT, unicast, `len = 0`, empty payload). -/
theorem update_available_advance (H : espnow_h) (env : Env) (s : espnow_state)
    (es : List esp_peer_t) (now : Int) (i : Nat) (p : esp_peer_t)
    (hes : s.handle.entries = some es) (hp : es[i]? = some p)
    (hst : p.status = esp_peer_status_t.AVAILABLE)
    (hclock : ∀ k, env.esp_timer_get_time k = now) :
    (∃ q, (esp_connection_handle_update H env s).get_peer i = some q
      ∧ q.status = esp_peer_status_t.CONNECTING ∧ q.connect_time_us = now)
    ∧ ((∀ k, env.malloc_ok k = true) →
        (∃ F, (esp_connection_handle_update H env s).sent = s.sent ++ F
          ∧ List.Forall₂ (connect_frame_for H)
              (es.filter (fun r => decide (r.status = esp_peer_status_t.AVAILABLE))) F)
        ∧ ∃ seq salt buf frame,
          (espnow_payload_create
              { ack := H.ESPNOW_PARAM_ACK_NACK, type := H.ESP_PEER_PACKET_CONNECT,
                broadcast := H.ESPNOW_DATA_UNICAST, seq_num := seq, dest_mac := p.mac,
                buffer := none, len := 0 }
              [] true salt).buffer = some buf
          ∧ (update_iterations H env s (i + 1)).sent
              = (update_iterations H env s i).sent ++ [(p.mac, buf)]
          ∧ (espnow_data_parse buf).1 = parse_result.ok frame
          ∧ frame.type = H.ESP_PEER_PACKET_CONNECT % 256
          ∧ frame.broadcast = H.ESPNOW_DATA_UNICAST % 256
          ∧ frame.len = 0 ∧ frame.payload = []) := by
  constructor
  · obtain ⟨q, hq, hv⟩ := update_peer_view H env s es now i p hes hp hclock
    obtain ⟨_, hstq, _, _, hct⟩ := peer_view_fields q _ hv
    refine ⟨q, hq, ?_, ?_⟩
    · rw [hstq]; simp [peer_step, hst]
    · rw [hct]; simp [peer_step, hst]
  · intro hok
    constructor
    · obtain ⟨F, hF, hrel⟩ := update_iterations_frames H env s es now hes hclock hok es.length
      rw [List.take_length] at hrel
      exact ⟨F, by rw [update_sent H env s es hes]; exact hF, hrel⟩
    obtain ⟨q, hq, hv⟩ := update_iterations_get_peer H env s es now i p hes hp hclock
    obtain ⟨hmac, hstq, _⟩ := peer_view_fields q p hv
    obtain ⟨seq, salt, buf, hbuf, hsent⟩ := update_peer_sent_available H env
      (update_iterations H env s i) i q hq (by rw [hstq, hst]) hok
    rw [hmac] at hbuf hsent
    have hb : buf = write_u16 (espnow_packet_fill
        { ack := H.ESPNOW_PARAM_ACK_NACK, type := H.ESP_PEER_PACKET_CONNECT,
          broadcast := H.ESPNOW_DATA_UNICAST, seq_num := seq, dest_mac := p.mac,
          buffer := none, len := 0 } salt []) 11
        (esp_crc16_le 0xFFFF (espnow_packet_fill
          { ack := H.ESPNOW_PARAM_ACK_NACK, type := H.ESP_PEER_PACKET_CONNECT,
            broadcast := H.ESPNOW_DATA_UNICAST, seq_num := seq, dest_mac := p.mac,
            buffer := none, len := 0 } salt [])) := by
      simp only [espnow_payload_create, if_true, Option.some.injEq] at hbuf
      exact hbuf.symm
    have hparse := congrArg Prod.fst (parse_packet
        { ack := H.ESPNOW_PARAM_ACK_NACK, type := H.ESP_PEER_PACKET_CONNECT,
          broadcast := H.ESPNOW_DATA_UNICAST, seq_num := seq, dest_mac := p.mac,
          buffer := none, len := 0 } salt [])
    rw [← hb] at hparse
    refine ⟨seq, salt, buf, _, hbuf, ?_, hparse, rfl, rfl, rfl, rfl⟩
    rw [update_iterations_succ]; exact hsent

/-- Witness of `update_available_advance`: an `AVAILABLE` peer, in a pass at
time 2,000,000, ends the pass `CONNECTING` with `connect_time_us = 2,000,000`. -/
theorem update_available_advance_witness :
    ∃ q, (esp_connection_handle_update sample_h (sample_env 2000000 true)
        (sample_state [sample_peer 6 esp_peer_status_t.AVAILABLE 1900000 1900000 0])).get_peer 0
          = some q
      ∧ q.status = esp_peer_status_t.CONNECTING ∧ q.connect_time_us = 2000000 :=
  (update_available_advance sample_h (sample_env 2000000 true)
    (sample_state [sample_peer 6 esp_peer_status_t.AVAILABLE 1900000 1900000 0])
    [sample_peer 6 esp_peer_status_t.AVAILABLE 1900000 1900000 0] 2000000 0
    (sample_peer 6 esp_peer_status_t.AVAILABLE 1900000 1900000 0) rfl rfl rfl (fun _ => rfl)).1

/-- C10: handshake timeout.  In one `esp_connection_handle_update` pass during
which the clock reads `now`, a peer that is `CONNECTING` at the start ends the
pass `NOREPLY` if and only if `now - connect_time_us > 1,000,000` and otherwise
stays `CONNECTING`.  In either case no frame is sent for it: its loop iteration
hands nothing to the radio, and every frame handed to the radio during the pass
is addressed to a peer that was `AVAILABLE` at the start. -/
theorem update_connecting_timeout (H : espnow_h) (env : Env) (s : espnow_state)
    (es : List esp_peer_t) (now : Int) (i : Nat) (p : esp_peer_t)
    (hes : s.handle.entries = some es) (hp : es[i]? = some p)
    (hst : p.status = esp_peer_status_t.CONNECTING)
    (hclock : ∀ k, env.esp_timer_get_time k = now) :
    (∃ q, (esp_connection_handle_update H env s).get_peer i = some q
      ∧ (q.status = esp_peer_status_t.NOREPLY ↔ now - p.connect_time_us > 1000000)
      ∧ (q.status = esp_peer_status_t.CONNECTING ↔ ¬ now - p.connect_time_us > 1000000))
    ∧ (update_iterations H env s (i + 1)).sent = (update_iterations H env s i).sent
    ∧ ∃ F, (esp_connection_handle_update H env s).sent = s.sent ++ F
        ∧ ∀ f ∈ F, ∃ r ∈ es, r.status = esp_peer_status_t.AVAILABLE ∧ f.1 = r.mac := by
  refine ⟨?_, ?_, ?_⟩
  · obtain ⟨q, hq, hv⟩ := update_peer_view H env s es now i p hes hp hclock
    obtain ⟨_, hstq, _⟩ := peer_view_fields q _ hv
    have hstep : (peer_step now p).status
        = if now - p.connect_time_us > 1000000 then esp_peer_status_t.NOREPLY
          else esp_peer_status_t.CONNECTING := by
      unfold peer_step
      simp only [hst, ONE_SECOND_IN_US]
      split <;> simp [hst]
    rw [hstep] at hstq
    refine ⟨q, hq, ?_, ?_⟩
    · rw [hstq]; split <;> simp [*]
    · rw [hstq]; split <;> simp [*]
  · obtain ⟨q, hq, hv⟩ := update_iterations_get_peer H env s es now i p hes hp hclock
    obtain ⟨_, hstq, _⟩ := peer_view_fields q p hv
    rw [update_iterations_succ]
    exact update_peer_sent_other H env _ i q hq (by rw [hstq, hst]; decide)
  · obtain ⟨F, hF, hall⟩ := update_iterations_dests H env s es now hes hclock es.length
    exact ⟨F, by rw [update_sent H env s es hes]; exact hF, hall⟩

/-- Witness of `update_connecting_timeout`: at time 2,000,000, a `CONNECTING`
peer whose handshake started at 999,999. -/
theorem update_connecting_timeout_witness :
    ∃ q, (esp_connection_handle_update sample_h (sample_env 2000000 false)
        (sample_state [sample_peer 6 esp_peer_status_t.CONNECTING 5 5 999999])).get_peer 0
          = some q
      ∧ (q.status = esp_peer_status_t.NOREPLY ↔ (2000000 : Int) - 999999 > 1000000)
      ∧ (q.status = esp_peer_status_t.CONNECTING ↔ ¬ (2000000 : Int) - 999999 > 1000000) :=
  (update_connecting_timeout sample_h (sample_env 2000000 false)
    (sample_state [sample_peer 6 esp_peer_status_t.CONNECTING 5 5 999999])
    [sample_peer 6 esp_peer_status_t.CONNECTING 5 5 999999] 2000000 0
    (sample_peer 6 esp_peer_status_t.CONNECTING 5 5 999999) rfl rfl rfl (fun _ => rfl)).1

/-! ## Claims on the reconciliation pass: broadcast silence -/

/-- C11: broadcast-silence timeout.  In one `esp_connection_handle_update` pass
during which the clock reads `now`, a peer whose status at the start is
`UNKNOWN`, `IN_RANGE`, `NOREPLY`, `REJECTED` or `PROTOCOL_ERROR` ends the pass
`LOST` if and only if `now - lastseen_broadcast_us > 1,000,000`, and otherwise
keeps its status.  Its `lastseen_unicast_us` plays no part. -/
theorem update_broadcast_timeout (H : espnow_h) (env : Env) (s : espnow_state)
    (es : List esp_peer_t) (now : Int) (i : Nat) (p : esp_peer_t)
    (hes : s.handle.entries = some es) (hp : es[i]? = some p)
    (hst : p.status = esp_peer_status_t.UNKNOWN ∨ p.status = esp_peer_status_t.IN_RANGE
      ∨ p.status = esp_peer_status_t.NOREPLY ∨ p.status = esp_peer_status_t.REJECTED
      ∨ p.status = esp_peer_status_t.PROTOCOL_ERROR)
    (hclock : ∀ k, env.esp_timer_get_time k = now) :
    ∃ q, (esp_connection_handle_update H env s).get_peer i = some q
      ∧ (q.status = esp_peer_status_t.LOST ↔ now - p.lastseen_broadcast_us > 1000000)
      ∧ (¬ now - p.lastseen_broadcast_us > 1000000 → q.status = p.status) := by
  obtain ⟨q, hq, hv⟩ := update_peer_view H env s es now i p hes hp hclock
  obtain ⟨_, hstq, _⟩ := peer_view_fields q _ hv
  have hstep : (peer_step now p).status
      = if now - p.lastseen_broadcast_us > 1000000 then esp_peer_status_t.LOST
        else p.status := by
    unfold peer_step
    rcases hst with h | h | h | h | h <;>
      (simp only [h, ONE_SECOND_IN_US]; split <;> simp [h])
  rw [hstep] at hstq
  refine ⟨q, hq, ?_, ?_⟩
  · rw [hstq]
    split
    · simp [*]
    · rcases hst with h | h | h | h | h <;> simp [h, *]
  · intro h
    rw [hstq, if_neg h]

/-- Witness of `update_broadcast_timeout`: at time 2,000,000, an `IN_RANGE`
peer whose last broadcast was heard at 999,999. -/
theorem update_broadcast_timeout_witness :
    ∃ q, (esp_connection_handle_update sample_h (sample_env 2000000 true)
        (sample_state [sample_peer 6 esp_peer_status_t.IN_RANGE 999999 1900000 0])).get_peer 0
          = some q
      ∧ (q.status = esp_peer_status_t.LOST ↔ (2000000 : Int) - 999999 > 1000000)
      ∧ (¬ (2000000 : Int) - 999999 > 1000000 → q.status = esp_peer_status_t.IN_RANGE) :=
  update_broadcast_timeout sample_h (sample_env 2000000 true)
    (sample_state [sample_peer 6 esp_peer_status_t.IN_RANGE 999999 1900000 0])
    [sample_peer 6 esp_peer_status_t.IN_RANGE 999999 1900000 0] 2000000 0
    (sample_peer 6 esp_peer_status_t.IN_RANGE 999999 1900000 0) rfl rfl
    (Or.inr (Or.inl rfl)) (fun _ => rfl)

/-! ## Codec: the buffer after a successful parse -/

theorem write_u16_write_u16 (l : List Nat) (off a b : Nat) :
    write_u16 (write_u16 l off a) off b = write_u16 l off b := by
  unfold write_u16
  rw [List.set_comm (a / 256 % 256) (b % 256) (l.set off (a % 256)) (by omega : off + 1 ≠ off),
    List.set_set, List.set_set]

theorem set_getD_self (l : List Nat) (i : Nat) (h : i < l.length) :
    l.set i (l.getD i 0) = l := by
  rw [List.getD_eq_getElem l 0 h]
  apply List.ext_getElem?
  intro k
  rw [List.getElem?_set]
  by_cases hik : i = k
  · subst hik
    simp [h]
  · simp [hik]

theorem getD_lt_of_bytes (l : List Nat) (hb : ∀ b ∈ l, b < 256) (i : Nat) :
    l.getD i 0 < 256 := by
  rw [List.getD_eq_getElem?_getD]
  cases hk : l[i]? with
  | none => simp
  | some x =>
    simp only [Option.getD_some]
    exact hb x (List.getElem?_mem hk)

theorem write_u16_read_u16 (l : List Nat) (off : Nat) (h : off + 1 < l.length)
    (hb : ∀ b ∈ l, b < 256) : write_u16 l off (read_u16 l off) = l := by
  have h0 := getD_lt_of_bytes l hb off
  have h1 := getD_lt_of_bytes l hb (off + 1)
  unfold write_u16 read_u16
  have e0 : (l.getD off 0 + 256 * l.getD (off + 1) 0) % 256 = l.getD off 0 := by omega
  have e1 : (l.getD off 0 + 256 * l.getD (off + 1) 0) / 256 % 256 = l.getD (off + 1) 0 := by
    omega
  rw [e0, e1, set_getD_self l off (by omega), set_getD_self l (off + 1) h]

/-! ## Claims on the frame codec: the accepted frame as a view -/

/-- C17: successful decode is a non-destructive view.  Whenever
`espnow_data_parse` accepts a buffer (of bytes), the buffer after the call is
identical to the buffer before the call, the returned frame is the header read
in place, and its payload is the sequence of the `len` input bytes that starts
immediately after the header (`len` being at most the number of bytes there). -/
theorem parse_accept_is_view (data after : List Nat) (frame : espnow_data_t)
    (hbytes : ∀ b ∈ data, b < 256)
    (hacc : espnow_data_parse data = (parse_result.ok frame, after)) :
    after = data
      ∧ frame = espnow_data_view data
      ∧ frame.payload = (data.drop ESPNOW_HEADER_LEN).take frame.len
      ∧ frame.len ≤ data.length - ESPNOW_HEADER_LEN
      ∧ frame.payload.length = frame.len
      ∧ ∀ k, k < frame.len → frame.payload[k]? = data[ESPNOW_HEADER_LEN + k]? := by
  unfold espnow_data_parse at hacc
  by_cases hshort : data.length < ESPNOW_HEADER_LEN
  · rw [if_pos hshort] at hacc
    cases hacc
  · rw [if_neg hshort] at hacc
    by_cases hdecl : read_u16 data 9 > data.length - ESPNOW_HEADER_LEN
    · rw [if_pos hdecl] at hacc
      cases hacc
    · rw [if_neg hdecl] at hacc
      simp only [] at hacc
      by_cases hcrc : esp_crc16_le 0xFFFF (write_u16 data 11 0) ≠ read_u16 data 11
      · rw [if_pos hcrc] at hacc
        cases hacc
      · rw [if_neg hcrc] at hacc
        have hlen : 11 + 1 < data.length := by
          simp only [ESPNOW_HEADER_LEN] at hshort
          omega
        have hrestore : write_u16 (write_u16 data 11 0) 11 (read_u16 data 11) = data := by
          rw [write_u16_write_u16, write_u16_read_u16 data 11 hlen hbytes]
        rw [hrestore] at hacc
        simp only [Prod.mk.injEq, parse_result.ok.injEq] at hacc
        obtain ⟨hframe, hafter⟩ := hacc
        have hl : frame.len = read_u16 data 9 := by rw [← hframe]; rfl
        have hpay : frame.payload = (data.drop ESPNOW_HEADER_LEN).take frame.len := by
          rw [hl, ← hframe]; rfl
        have hle : frame.len ≤ data.length - ESPNOW_HEADER_LEN := by rw [hl]; omega
        refine ⟨hafter.symm, hframe.symm, hpay, hle, ?_, ?_⟩
        · rw [hpay, List.length_take, List.length_drop]
          omega
        · intro k hk
          rw [hpay, List.getElem?_take_of_lt hk, List.getElem?_drop]

/-- Witness of `parse_accept_is_view`: the frame built for payload `[65, 66]`. -/
theorem parse_accept_is_view_witness :
    [1, 239, 190, 173, 222, 7, 1, 52, 18, 2, 0, 128, 255, 65, 66]
        = [1, 239, 190, 173, 222, 7, 1, 52, 18, 2, 0, 128, 255, 65, 66]
      ∧ (⟨1, 3735928559, 7, 1, 4660, 2, 65408, [65, 66]⟩ : espnow_data_t)
        = espnow_data_view [1, 239, 190, 173, 222, 7, 1, 52, 18, 2, 0, 128, 255, 65, 66]
      ∧ [65, 66] = (([1, 239, 190, 173, 222, 7, 1, 52, 18, 2, 0, 128, 255, 65, 66] :
          List Nat).drop ESPNOW_HEADER_LEN).take 2
      ∧ 2 ≤ [1, 239, 190, 173, 222, 7, 1, 52, 18, 2, 0, 128, 255, 65, 66].length
          - ESPNOW_HEADER_LEN
      ∧ [65, 66].length = 2
      ∧ ∀ k, k < 2 → ([65, 66] : List Nat)[k]?
          = ([1, 239, 190, 173, 222, 7, 1, 52, 18, 2, 0, 128, 255, 65, 66] :
              List Nat)[ESPNOW_HEADER_LEN + k]? :=
  parse_accept_is_view [1, 239, 190, 173, 222, 7, 1, 52, 18, 2, 0, 128, 255, 65, 66]
    [1, 239, 190, 173, 222, 7, 1, 52, 18, 2, 0, 128, 255, 65, 66]
    ⟨1, 3735928559, 7, 1, 4660, 2, 65408, [65, 66]⟩ (by decide) (by rfl)

/-! ## Claims on the event queue -/

/-- C14 (as stated, refuted): `espnow_recv_cb` runs with an empty queue of
capacity 16, and the `malloc` of the copy of the received bytes fails: the
queue is not full, yet the event is not appended. -/
theorem recv_cb_alloc_failure_not_queued :
    (sample_state []).espnow_queue.length < sample_h.ESPNOW_QUEUE_SIZE
      ∧ (espnow_recv_cb sample_h (sample_env 0 false) (sample_state [])
          (some ⟨1, 2, 3, 4, 5, 6⟩) (some [65, 66])).espnow_queue = [] := by
  refine ⟨by decide, by rfl⟩

/-- C14 (amended): backpressure safety, the queue being a bounded FIFO of
capacity `ESPNOW_QUEUE_SIZE`.  When `espnow_send_cb` or `espnow_recv_cb` runs
(with valid arguments) while the queue is full, the new event is dropped and
the queue holds exactly the same events in the same order as before.  When the
queue is not full, `espnow_send_cb` appends its event at the tail, and so does
`espnow_recv_cb` provided the allocation of the copy of the received bytes
succeeds; earlier events are unchanged.  In every case, whatever the
arguments, the peer table (the whole connection handle) is unchanged. -/
theorem callbacks_backpressure (H : espnow_h) (env : Env) (s : espnow_state)
    (mac : mac_t) (status : Nat) (bytes : List Nat) (hbytes : bytes ≠ []) :
    (H.ESPNOW_QUEUE_SIZE ≤ s.espnow_queue.length →
        (espnow_send_cb H s (some mac) status).espnow_queue = s.espnow_queue
        ∧ (espnow_recv_cb H env s (some mac) (some bytes)).espnow_queue = s.espnow_queue)
    ∧ (s.espnow_queue.length < H.ESPNOW_QUEUE_SIZE →
        (espnow_send_cb H s (some mac) status).espnow_queue
            = s.espnow_queue ++ [espnow_event_t.send_cb mac status]
        ∧ (env.malloc_ok s.calls = true →
            (espnow_recv_cb H env s (some mac) (some bytes)).espnow_queue
              = s.espnow_queue ++ [espnow_event_t.recv_cb mac bytes]))
    ∧ (∀ (src : Option mac_t) (data : Option (List Nat)) (st : Nat),
        (espnow_send_cb H s src st).handle = s.handle
        ∧ (espnow_recv_cb H env s src data).handle = s.handle) := by
  have hlen : ¬ bytes.length = 0 := by
    intro h
    exact hbytes (List.length_eq_zero.1 h)
  refine ⟨?_, ?_, ?_⟩
  · intro hfull
    have hnot : ¬ s.espnow_queue.length < H.ESPNOW_QUEUE_SIZE := by omega
    constructor
    · simp [espnow_send_cb, xQueueSend, hnot]
    · unfold espnow_recv_cb
      simp only [hlen, if_false, xQueueSend, hnot]
      split <;> rfl
  · intro hfree
    constructor
    · simp [espnow_send_cb, xQueueSend, hfree]
    · intro hok
      unfold espnow_recv_cb
      simp only [hlen, if_false, xQueueSend, hfree, hok, if_true]
  · intro src data st
    constructor
    · unfold espnow_send_cb
      split <;> rfl
    · unfold espnow_recv_cb
      split
      · split
        · rfl
        · split <;> rfl
      · rfl

/-- Witness of `callbacks_backpressure`: with a queue of capacity 2 that holds
two events, both callbacks leave the queue as it was. -/
theorem callbacks_backpressure_witness :
    (espnow_send_cb ⟨2, 0, 0, 1, 3⟩
        { sample_state [] with espnow_queue :=
            [espnow_event_t.send_cb ⟨1, 2, 3, 4, 5, 6⟩ 0,
             espnow_event_t.recv_cb ⟨1, 2, 3, 4, 5, 7⟩ [9]] }
        (some ⟨1, 2, 3, 4, 5, 8⟩) 1).espnow_queue
      = [espnow_event_t.send_cb ⟨1, 2, 3, 4, 5, 6⟩ 0,
         espnow_event_t.recv_cb ⟨1, 2, 3, 4, 5, 7⟩ [9]]
    ∧ (espnow_recv_cb ⟨2, 0, 0, 1, 3⟩ (sample_env 0 true)
        { sample_state [] with espnow_queue :=
            [espnow_event_t.send_cb ⟨1, 2, 3, 4, 5, 6⟩ 0,
             espnow_event_t.recv_cb ⟨1, 2, 3, 4, 5, 7⟩ [9]] }
        (some ⟨1, 2, 3, 4, 5, 8⟩) (some [65, 66])).espnow_queue
      = [espnow_event_t.send_cb ⟨1, 2, 3, 4, 5, 6⟩ 0,
         espnow_event_t.recv_cb ⟨1, 2, 3, 4, 5, 7⟩ [9]] :=
  (callbacks_backpressure ⟨2, 0, 0, 1, 3⟩ (sample_env 0 true)
    { sample_state [] with espnow_queue :=
        [espnow_event_t.send_cb ⟨1, 2, 3, 4, 5, 6⟩ 0,
         espnow_event_t.recv_cb ⟨1, 2, 3, 4, 5, 7⟩ [9]] }
    ⟨1, 2, 3, 4, 5, 8⟩ 1 [65, 66] (by decide)).1 (by decide)

/-! ## Aggregate connectivity flag -/

theorem count_connected_foldl (es : List esp_peer_t) (c : Nat) :
    es.foldl (fun count peer =>
        if peer.status = esp_peer_status_t.CONNECTED then count + 1 else count) c
      = c + es.countP (fun p => decide (p.status = esp_peer_status_t.CONNECTED)) := by
  induction es generalizing c with
  | nil => simp
  | cons p ps ih =>
    rw [List.foldl_cons, ih, List.countP_cons]
    by_cases h : p.status = esp_peer_status_t.CONNECTED
    · simp [h]; omega
    · simp [h]

theorem count_connected_eq (handle : esp_connection_handle_t) :
    esp_connection_count_connected handle
      = (handle.entries.getD []).countP
          (fun p => decide (p.status = esp_peer_status_t.CONNECTED)) := by
  unfold esp_connection_count_connected
  cases handle.entries with
  | none => simp
  | some es => simp [count_connected_foldl]

theorem count_connected_ne_zero (handle : esp_connection_handle_t) :
    esp_connection_count_connected handle ≠ 0
      ↔ ∃ p ∈ handle.entries.getD [], p.status = esp_peer_status_t.CONNECTED := by
  rw [count_connected_eq, ← Nat.pos_iff_ne_zero, List.countP_pos_iff]
  simp

theorem peer_step_connected (now : Int) (p : esp_peer_t) :
    (peer_step now p).status = esp_peer_status_t.CONNECTED
      ↔ p.status = esp_peer_status_t.CONNECTED ∧ ¬ now - p.lastseen_unicast_us > 1000000 := by
  unfold peer_step
  cases h : p.status <;> simp only [ONE_SECOND_IN_US] <;> (try split) <;> simp [*]

/-! ## Claims on the aggregate connectivity flag -/

/-- C12: aggregate connectivity flag.  After every
`esp_connection_handle_update` pass (on a handle whose table is allocated, or
whose flag is still `false` as `esp_connection_handle_init` leaves it),
`handle->remote_connected` is `true` if and only if at least one record of the
table has status `CONNECTED` at the end of the pass;
`esp_connection_count_connected` returns exactly the number of records with
status `CONNECTED`; and when the clock reads `now` during the pass, the flag is
`true` if and only if some record was `CONNECTED` at the start and did not time
out, so a peer that times out to `LOST` during the pass is not counted. -/
theorem update_remote_connected (H : espnow_h) (env : Env) (s : espnow_state)
    (hinit : s.handle.entries = none → s.handle.remote_connected = false) :
    ((esp_connection_handle_update H env s).handle.remote_connected = true
        ↔ ∃ p ∈ (esp_connection_handle_update H env s).handle.entries.getD [],
            p.status = esp_peer_status_t.CONNECTED)
    ∧ (∀ handle : esp_connection_handle_t,
        esp_connection_count_connected handle
          = (handle.entries.getD []).countP
              (fun p => decide (p.status = esp_peer_status_t.CONNECTED)))
    ∧ (∀ (es : List esp_peer_t) (now : Int), s.handle.entries = some es →
        (∀ k, env.esp_timer_get_time k = now) →
        ((esp_connection_handle_update H env s).handle.remote_connected = true
          ↔ ∃ p ∈ es, p.status = esp_peer_status_t.CONNECTED
              ∧ ¬ now - p.lastseen_unicast_us > 1000000)) := by
  have hflag : ∀ es, s.handle.entries = some es →
      ((esp_connection_handle_update H env s).handle.remote_connected = true
        ↔ ∃ p ∈ (update_iterations H env s es.length).handle.entries.getD [],
            p.status = esp_peer_status_t.CONNECTED) := by
    intro es hes
    unfold esp_connection_handle_update
    simp only [hes, decide_eq_true_eq]
    exact count_connected_ne_zero _
  have hentries : ∀ es, s.handle.entries = some es →
      (esp_connection_handle_update H env s).handle.entries
        = (update_iterations H env s es.length).handle.entries := by
    intro es hes
    unfold esp_connection_handle_update
    simp only [hes]
  refine ⟨?_, count_connected_eq, ?_⟩
  · cases hes : s.handle.entries with
    | none =>
      have hsame : esp_connection_handle_update H env s = s := by
        unfold esp_connection_handle_update
        simp only [hes]
      rw [hsame, hinit hes, hes]
      simp
    | some es =>
      rw [hflag es hes, hentries es hes]
  · intro es now hes hclock
    rw [hflag es hes]
    obtain ⟨es2, h2, hlen, hpt⟩ := update_iterations_entries H env s es now hes hclock es.length
    rw [h2]
    simp only [Option.getD_some]
    constructor
    · rintro ⟨q, hq, hst⟩
      obtain ⟨k, hk⟩ := List.mem_iff_getElem?.1 hq
      have hklt : k < es.length := by
        have := (List.getElem?_eq_some.1 hk).1
        omega
      obtain ⟨q2, hq2, hv⟩ := hpt k es[k] (List.getElem?_eq_getElem hklt)
      rw [hk] at hq2
      cases hq2
      rw [if_pos hklt] at hv
      obtain ⟨_, hstq, _⟩ := peer_view_fields q _ hv
      rw [hst] at hstq
      exact ⟨es[k], List.getElem_mem hklt, (peer_step_connected now es[k]).1 hstq.symm⟩
    · rintro ⟨p, hp, hst⟩
      obtain ⟨k, hk⟩ := List.mem_iff_getElem?.1 hp
      have hklt : k < es.length := (List.getElem?_eq_some.1 hk).1
      obtain ⟨q, hq, hv⟩ := hpt k p hk
      rw [if_pos hklt] at hv
      obtain ⟨_, hstq, _⟩ := peer_view_fields q _ hv
      exact ⟨q, List.getElem?_mem hq, by rw [hstq]; exact (peer_step_connected now p).2 hst⟩

/-- Witness of `update_remote_connected`: at time 2,000,000 a table with one
`CONNECTED` peer that times out and one that does not; the flag is `true`. -/
theorem update_remote_connected_witness :
    (esp_connection_handle_update sample_h (sample_env 2000000 true)
        (sample_state [sample_peer 6 esp_peer_status_t.CONNECTED 5 999999 0,
          sample_peer 7 esp_peer_status_t.CONNECTED 5 1000000 0])).handle.remote_connected = true
      ↔ ∃ p ∈ (esp_connection_handle_update sample_h (sample_env 2000000 true)
          (sample_state [sample_peer 6 esp_peer_status_t.CONNECTED 5 999999 0,
            sample_peer 7 esp_peer_status_t.CONNECTED 5 1000000 0])).handle.entries.getD [],
          p.status = esp_peer_status_t.CONNECTED :=
  (update_remote_connected sample_h (sample_env 2000000 true)
    (sample_state [sample_peer 6 esp_peer_status_t.CONNECTED 5 999999 0,
      sample_peer 7 esp_peer_status_t.CONNECTED 5 1000000 0])
    (fun h => by cases h)).1

/-! ## Send path: sequence numbers -/

theorem send_data_seq_found (env : Env) (s : espnow_state) (sp : espnow_send_param_t)
    (es : List esp_peer_t) (i : Nat) (p : esp_peer_t)
    (hreg : s.handle_registered = true) (hes : s.handle.entries = some es)
    (hlook : esp_connection_mac_lookup s.handle sp.dest_mac = some i)
    (hp : es[i]? = some p) :
    espnow_send_data_seq env s sp
      = ({ sp with seq_num := p.seq_tx },
         { (s.set_peer i
              { p with
                seq_tx := (p.seq_tx + 1) % 65536
                lastsent_unicast_us := env.esp_timer_get_time s.calls }) with
           calls := s.calls + 1 }) := by
  have hg : s.get_peer i = some p := by rw [get_peer_eq s es i hes]; exact hp
  unfold espnow_send_data_seq
  simp only [hreg, hlook, hg, if_true]

theorem send_data_seq_not_found (env : Env) (s : espnow_state) (sp : espnow_send_param_t)
    (h : s.handle_registered = false
      ∨ esp_connection_mac_lookup s.handle sp.dest_mac = none) :
    espnow_send_data_seq env s sp
      = ({ sp with seq_num := s.espnow_seq_tx },
         { s with espnow_seq_tx := (s.espnow_seq_tx + 1) % 65536 }) := by
  unfold espnow_send_data_seq
  rcases h with h | h
  · simp only [h, Bool.false_eq_true, if_false]
  · by_cases hreg : s.handle_registered = true
    · simp only [hreg, h, if_true]
    · have hf : s.handle_registered = false := by simpa using hreg
      simp only [hf, Bool.false_eq_true, if_false]

/-- The result of `espnow_send_data` in terms of the state and the descriptor
that the assignment of the sequence number leaves. -/
theorem send_data_after_seq (H : espnow_h) (env : Env) (s : espnow_state)
    (sp : espnow_send_param_t) (ty : Nat) (data : List Nat) :
    (espnow_send_data H env s sp ty data).2.1.seq_num = (espnow_send_data_seq env s sp).1.seq_num
    ∧ (espnow_send_data H env s sp ty data).2.2.handle = (espnow_send_data_seq env s sp).2.handle
    ∧ (espnow_send_data H env s sp ty data).2.2.espnow_seq_tx
        = (espnow_send_data_seq env s sp).2.espnow_seq_tx
    ∧ (env.malloc_ok (espnow_send_data_seq env s sp).2.calls = true →
        ∃ buf frame,
          (espnow_send_data H env s sp ty data).2.2.sent = s.sent ++ [(sp.dest_mac, buf)]
          ∧ (espnow_data_parse buf).1 = parse_result.ok frame
          ∧ frame.seq_num = (espnow_send_data_seq env s sp).1.seq_num % 65536) := by
  obtain ⟨hsent, hdest, _⟩ := send_data_seq_sent env s sp
  refine ⟨?_, ?_, ?_, ?_⟩
  · unfold espnow_send_data
    simp only []
    split
    · cases hm : env.malloc_ok (espnow_send_data_seq env s sp).2.calls <;>
        simp [espnow_payload_create, hm]
    · cases hm : env.malloc_ok (espnow_send_data_seq env s sp).2.calls <;>
        simp [espnow_payload_create, espnow_payload_cleanup, hm]
  · unfold espnow_send_data
    simp only []
    split <;> rfl
  · unfold espnow_send_data
    simp only []
    split <;> rfl
  · intro hok
    have hp := congrArg Prod.fst (parse_packet
      { (espnow_send_data_seq env s sp).1 with ack := H.ESPNOW_PARAM_ACK_NACK, type := ty }
      (env.esp_random ((espnow_send_data_seq env s sp).2.calls + 1)) data)
    refine ⟨_, _, ?_, hp, rfl⟩
    unfold espnow_send_data
    simp only [hok, espnow_payload_create, if_true, hsent, hdest]

/-! ## Claims on the send path -/

/-- C13 (as stated, refuted): the table holds a record whose address is the
broadcast address `ff:ff:ff:ff:ff:ff` (with `seq_tx = 5`), the global transmit
counter is 9, and a broadcast frame is sent.  The frame takes sequence number
5 from the record, the record is changed (`seq_tx = 6`, `lastsent_unicast_us`
set) and the global counter stays 9: the code decides by the lookup of the
destination address, not by the broadcast flag. -/
theorem send_broadcast_uses_peer_counter :
    (espnow_default_send_param sample_h).broadcast = sample_h.ESPNOW_DATA_BROADCAST
    ∧ (espnow_default_send_param sample_h).dest_mac = broadcast_mac
    ∧ (espnow_send_data sample_h (sample_env 7000 true)
        { sample_state [{ sample_peer 0 esp_peer_status_t.UNKNOWN 0 0 0 with
            mac := broadcast_mac, seq_tx := 5 }] with espnow_seq_tx := 9 }
        (espnow_default_send_param sample_h) 1 []).2.1.seq_num = 5
    ∧ (espnow_send_data sample_h (sample_env 7000 true)
        { sample_state [{ sample_peer 0 esp_peer_status_t.UNKNOWN 0 0 0 with
            mac := broadcast_mac, seq_tx := 5 }] with espnow_seq_tx := 9 }
        (espnow_default_send_param sample_h) 1 []).2.2.espnow_seq_tx = 9
    ∧ (espnow_send_data sample_h (sample_env 7000 true)
        { sample_state [{ sample_peer 0 esp_peer_status_t.UNKNOWN 0 0 0 with
            mac := broadcast_mac, seq_tx := 5 }] with espnow_seq_tx := 9 }
        (espnow_default_send_param sample_h) 1 []).2.2.handle.entries
      = some [{ sample_peer 0 esp_peer_status_t.UNKNOWN 0 0 0 with
          mac := broadcast_mac, seq_tx := 6, lastsent_unicast_us := 7000 }]
    ∧ (espnow_send_data sample_h (sample_env 7000 true)
        { sample_state [{ sample_peer 0 esp_peer_status_t.UNKNOWN 0 0 0 with
            mac := broadcast_mac, seq_tx := 5 }] with espnow_seq_tx := 9 }
        (espnow_default_send_param sample_h) 1 []).2.2.sent
      = [(broadcast_mac, [0, 0, 0, 0, 0, 1, 0, 5, 0, 0, 0, 199, 106])] := by
  refine ⟨rfl, rfl, by rfl, by rfl, by rfl, by rfl⟩

/-- C13 (amended): sequence-number assignment on transmit.  For every
`espnow_send_data` call: if the destination address is found in the table
registered with the module (record `i`, holding `p`), the descriptor's and the
frame's sequence number is `p.seq_tx` as it was before the call, the record
afterwards has `seq_tx` equal to that value plus 1 modulo `2^16` and
`lastsent_unicast_us` equal to the clock reading of the call, nothing else in
the table changes and the global transmit counter is unchanged; if the
destination address is not found (no record has it, or no table is registered),
the sequence number is the global transmit counter as it was before the call,
the counter afterwards is that value plus 1 modulo `2^16`, and the connection
handle is unchanged.  The address is found exactly when some record of the
table has it. -/
theorem send_data_sequence (H : espnow_h) (env : Env) (s : espnow_state)
    (sp : espnow_send_param_t) (ty : Nat) (data : List Nat) :
    (∀ (es : List esp_peer_t) (i : Nat) (p : esp_peer_t),
        s.handle_registered = true → s.handle.entries = some es →
        esp_connection_mac_lookup s.handle sp.dest_mac = some i → es[i]? = some p →
        (espnow_send_data H env s sp ty data).2.1.seq_num = p.seq_tx
        ∧ (espnow_send_data H env s sp ty data).2.2.handle.entries
            = some (es.set i { p with
                seq_tx := (p.seq_tx + 1) % 65536
                lastsent_unicast_us := env.esp_timer_get_time s.calls })
        ∧ (espnow_send_data H env s sp ty data).2.2.espnow_seq_tx = s.espnow_seq_tx
        ∧ (env.malloc_ok (s.calls + 1) = true →
            ∃ buf frame,
              (espnow_send_data H env s sp ty data).2.2.sent = s.sent ++ [(sp.dest_mac, buf)]
              ∧ (espnow_data_parse buf).1 = parse_result.ok frame
              ∧ frame.seq_num = p.seq_tx % 65536))
    ∧ ((s.handle_registered = false
          ∨ esp_connection_mac_lookup s.handle sp.dest_mac = none) →
        (espnow_send_data H env s sp ty data).2.1.seq_num = s.espnow_seq_tx
        ∧ (espnow_send_data H env s sp ty data).2.2.espnow_seq_tx
            = (s.espnow_seq_tx + 1) % 65536
        ∧ (espnow_send_data H env s sp ty data).2.2.handle = s.handle
        ∧ (env.malloc_ok s.calls = true →
            ∃ buf frame,
              (espnow_send_data H env s sp ty data).2.2.sent = s.sent ++ [(sp.dest_mac, buf)]
              ∧ (espnow_data_parse buf).1 = parse_result.ok frame
              ∧ frame.seq_num = s.espnow_seq_tx % 65536))
    ∧ (∀ es : List esp_peer_t, s.handle.entries = some es →
        (esp_connection_mac_lookup s.handle sp.dest_mac = none
          ↔ ∀ q ∈ es, q.mac ≠ sp.dest_mac)) := by
  obtain ⟨h1, h2, h3, h4⟩ := send_data_after_seq H env s sp ty data
  refine ⟨?_, ?_, ?_⟩
  · intro es i p hreg hes hlook hp
    have hseq := send_data_seq_found env s sp es i p hreg hes hlook hp
    rw [hseq] at h1 h2 h3 h4
    refine ⟨h1, ?_, ?_, h4⟩
    · rw [h2]
      exact set_peer_entries s es i _ hes
    · rw [h3]
      simp only [espnow_state.set_peer, hes]
  · intro hnot
    have hseq := send_data_seq_not_found env s sp hnot
    rw [hseq] at h1 h2 h3 h4
    exact ⟨h1, h3, h2, h4⟩
  · intro es hes
    simp only [esp_connection_mac_lookup, hes]
    exact mac_lookup_from_none sp.dest_mac es 0

/-- Witness of `send_data_sequence`: a unicast to the one peer of the table,
whose `seq_tx` is 0; the descriptor takes sequence number 0. -/
theorem send_data_sequence_witness :
    (espnow_send_data sample_h (sample_env 7000 true)
        (sample_state [sample_peer 6 esp_peer_status_t.CONNECTED 5 5 0])
        (espnow_get_send_param_unicast sample_h (espnow_default_send_param sample_h)
          ⟨1, 2, 3, 4, 5, 6⟩) 1 [65]).2.1.seq_num
      = (sample_peer 6 esp_peer_status_t.CONNECTED 5 5 0).seq_tx :=
  ((send_data_sequence sample_h (sample_env 7000 true)
    (sample_state [sample_peer 6 esp_peer_status_t.CONNECTED 5 5 0])
    (espnow_get_send_param_unicast sample_h (espnow_default_send_param sample_h)
      ⟨1, 2, 3, 4, 5, 6⟩) 1 [65]).1
    [sample_peer 6 esp_peer_status_t.CONNECTED 5 5 0] 0
    (sample_peer 6 esp_peer_status_t.CONNECTED 5 5 0) rfl rfl (by rfl) rfl).1

/-! ## Reconciliation pass without an assumption on the clock -/

theorem update_peer_entries_any (H : espnow_h) (env : Env) (s : espnow_state) (i : Nat)
    (es : List esp_peer_t) (p : esp_peer_t)
    (hes : s.handle.entries = some es) (hp : es[i]? = some p) :
    ∃ es2, (esp_connection_handle_update_peer H env s i).handle.entries = some es2
      ∧ es2.map peer_view
          = (es.map peer_view).set i (peer_view (peer_step (env.esp_timer_get_time s.calls) p)) := by
  have hg : s.get_peer i = some p := by rw [get_peer_eq s es i hes]; exact hp
  have hsame : (es.map peer_view).set i (peer_view p) = es.map peer_view := by
    rw [← List.map_set]
    exact map_set_same peer_view es i p p hp rfl
  cases hst : p.status
  case AVAILABLE =>
    rw [update_peer_available H env s i p hg hst]
    have hes1 : (({ s with calls := s.calls + 1 } : espnow_state).set_peer i
        { p with connect_time_us := env.esp_timer_get_time s.calls }).handle.entries
          = some (es.set i { p with connect_time_us := env.esp_timer_get_time s.calls }) :=
      set_peer_entries _ es i _ hes
    obtain ⟨es2, h2, hv2⟩ := send_data_entries H env _
      (espnow_get_send_param_unicast H (espnow_default_send_param H) p.mac)
      H.ESP_PEER_PACKET_CONNECT [] _ hes1
    have hlt : i < es.length := (List.getElem?_eq_some.1 hp).1
    have hlen : es2.length = es.length := by
      have := congrArg List.length hv2
      simpa using this
    have hlt2 : i < es2.length := by omega
    have hview : peer_view es2[i]
        = peer_view { p with connect_time_us := env.esp_timer_get_time s.calls } := by
      have h := congrArg (fun l => l[i]?) hv2
      simp only [List.getElem?_map, List.getElem?_set, hlt, if_true] at h
      rw [List.getElem?_eq_getElem hlt2] at h
      simpa using h
    rw [get_peer_eq _ es2 i h2, List.getElem?_eq_getElem hlt2]
    refine ⟨es2.set i (esp_peer_set_status es2[i] esp_peer_status_t.CONNECTING), ?_, ?_⟩
    · exact set_peer_entries _ es2 i _ h2
    · rw [List.map_set, hv2, List.map_set, List.set_set]
      congr 1
      simp only [peer_view, esp_peer_set_status, peer_step, hst, Prod.mk.injEq] at hview ⊢
      obtain ⟨h1, _, h3, h4, h5⟩ := hview
      exact ⟨h1, trivial, h3, h4, h5⟩
  all_goals
    unfold esp_connection_handle_update_peer
    simp only [hg, hst, peer_step]
    first
      | exact ⟨es, hes, hsame.symm⟩
      | (split
         · refine ⟨_, set_peer_entries _ es i _ hes, ?_⟩
           rw [List.map_set]
           rfl
         · exact ⟨es, hes, hsame.symm⟩)

theorem update_peer_skip (H : espnow_h) (env : Env) (s : espnow_state) (i : Nat)
    (h : s.get_peer i = none) : esp_connection_handle_update_peer H env s i = s := by
  unfold esp_connection_handle_update_peer
  simp only [h]

/-- After the first `n` iterations of the loop, whatever the clock does: the
table has its length, the records of index `n` or more are as at the start and
every other record `k` has made the step of `peer_step` at the clock reading
taken in iteration `k` (as far as the fields of `peer_view` go). -/
theorem update_iterations_entries_any (H : espnow_h) (env : Env) (s : espnow_state)
    (es : List esp_peer_t) (hes : s.handle.entries = some es) (n : Nat) :
    ∃ es2, (update_iterations H env s n).handle.entries = some es2
      ∧ es2.length = es.length
      ∧ ∀ k p, es[k]? = some p → ∃ q, es2[k]? = some q
          ∧ (k < n → peer_view q = peer_view
              (peer_step (env.esp_timer_get_time (update_iterations H env s k).calls) p))
          ∧ (n ≤ k → peer_view q = peer_view p) := by
  induction n with
  | zero =>
    refine ⟨es, hes, rfl, ?_⟩
    intro k p hk
    exact ⟨p, hk, fun h => absurd h (by omega), fun _ => rfl⟩
  | succ n ih =>
    obtain ⟨es2, h2, hlen, hpt⟩ := ih
    rw [update_iterations_succ]
    cases hn : es[n]? with
    | none =>
      have hn2 : es2[n]? = none := by
        rw [List.getElem?_eq_none_iff] at hn ⊢
        omega
      rw [update_peer_skip H env _ n (by rw [get_peer_eq _ es2 n h2]; exact hn2)]
      refine ⟨es2, h2, hlen, ?_⟩
      intro k p hk
      obtain ⟨q, hq, hlo, hhi⟩ := hpt k p hk
      have hklt : k < es.length := (List.getElem?_eq_some.1 hk).1
      have hnge : es.length ≤ n := List.getElem?_eq_none_iff.1 hn
      exact ⟨q, hq, fun _ => hlo (by omega), fun h => absurd h (by omega)⟩
    | some pn =>
      obtain ⟨qn, hqn, _, hvn⟩ := hpt n pn hn
      have hvn := hvn (le_refl n)
      obtain ⟨es3, h3, hv3⟩ := update_peer_entries_any H env (update_iterations H env s n) n
        es2 qn h2 hqn
      have hlen3 : es3.length = es.length := by
        have := congrArg List.length hv3
        simp only [List.length_map, List.length_set] at this
        omega
      refine ⟨es3, h3, hlen3, ?_⟩
      intro k p hk
      have hklt : k < es.length := (List.getElem?_eq_some.1 hk).1
      have hklt3 : k < es3.length := by omega
      refine ⟨es3[k], List.getElem?_eq_getElem hklt3, ?_⟩
      have h := congrArg (fun l => l[k]?) hv3
      simp only [List.getElem?_map, List.getElem?_set, List.length_map] at h
      rw [List.getElem?_eq_getElem hklt3] at h
      obtain ⟨q, hq, hlo, hhi⟩ := hpt k p hk
      by_cases hkn : n = k
      · subst hkn
        rw [hn] at hk
        cases hk
        rw [if_pos rfl, if_pos (by omega)] at h
        simp only [Option.map_some', Option.some.injEq] at h
        refine ⟨fun _ => ?_, fun hle => absurd hle (by omega)⟩
        rw [h]
        exact peer_step_view_congr _ pn qn hvn
      · rw [if_neg hkn, hq] at h
        simp only [Option.map_some', Option.some.injEq] at h
        refine ⟨fun hlt => ?_, fun hle => ?_⟩
        · rw [h]
          exact hlo (by omega)
        · rw [h]
          exact hhi (by omega)

theorem peer_step_mac (t : Int) (p : esp_peer_t) : (peer_step t p).mac = p.mac := by
  unfold peer_step
  cases p.status <;> simp only [] <;> (try split) <;> rfl

theorem map_eq_of_getElem {α β : Type} (f : α → β) (l1 l2 : List α)
    (hlen : l1.length = l2.length)
    (h : ∀ (k : Nat) (a : α), l2[k]? = some a → ∃ b, l1[k]? = some b ∧ f b = f a) :
    l1.map f = l2.map f := by
  apply List.ext_getElem?
  intro k
  rw [List.getElem?_map, List.getElem?_map]
  cases hk : l2[k]? with
  | none =>
    have : l1[k]? = none := by
      rw [List.getElem?_eq_none_iff] at hk ⊢
      omega
    rw [this]
  | some a =>
    obtain ⟨b, hb, hf⟩ := h k a hk
    rw [hb]
    simp [hf]

/-- A pass keeps the length of the table and the address at every index. -/
theorem update_iterations_macs (H : espnow_h) (env : Env) (s : espnow_state)
    (es : List esp_peer_t) (hes : s.handle.entries = some es) (n : Nat) :
    ∃ es2, (update_iterations H env s n).handle.entries = some es2
      ∧ es2.length = es.length
      ∧ es2.map (fun p => p.mac) = es.map (fun p => p.mac) := by
  obtain ⟨es2, h2, hlen, hpt⟩ := update_iterations_entries_any H env s es hes n
  refine ⟨es2, h2, hlen, ?_⟩
  apply map_eq_of_getElem _ es2 es hlen
  intro k a hk
  obtain ⟨q, hq, hlo, hhi⟩ := hpt k a hk
  refine ⟨q, hq, ?_⟩
  by_cases hkn : k < n
  · rw [(peer_view_fields q _ (hlo hkn)).1, peer_step_mac]
  · exact (peer_view_fields q a (hhi (by omega))).1

theorem update_entries (H : espnow_h) (env : Env) (s : espnow_state) (es : List esp_peer_t)
    (hes : s.handle.entries = some es) :
    (esp_connection_handle_update H env s).handle.entries
      = (update_iterations H env s es.length).handle.entries := by
  unfold esp_connection_handle_update
  simp only [hes]

theorem update_entries_none (H : espnow_h) (env : Env) (s : espnow_state)
    (hes : s.handle.entries = none) : esp_connection_handle_update H env s = s := by
  unfold esp_connection_handle_update
  simp only [hes]

/-! ## Addresses of the table under the operations -/

theorem peer_view_map_macs (es2 es : List esp_peer_t)
    (h : es2.map peer_view = es.map peer_view) :
    es2.map (fun p => p.mac) = es.map (fun p => p.mac) := by
  have h2 := congrArg (List.map Prod.fst) h
  simpa [List.map_map, Function.comp_def, peer_view] using h2

theorem send_data_macs (H : espnow_h) (env : Env) (s : espnow_state)
    (sp : espnow_send_param_t) (ty : Nat) (data : List Nat)
    (es : List esp_peer_t) (hes : s.handle.entries = some es) :
    ∃ es2, (espnow_send_data H env s sp ty data).2.2.handle.entries = some es2
      ∧ es2.length = es.length
      ∧ es2.map (fun p => p.mac) = es.map (fun p => p.mac) := by
  obtain ⟨es2, h2, hv⟩ := send_data_entries H env s sp ty data es hes
  have hm := peer_view_map_macs es2 es hv
  refine ⟨es2, h2, ?_, hm⟩
  have := congrArg List.length hm
  simpa using this

theorem send_data_entries_none (H : espnow_h) (env : Env) (s : espnow_state)
    (sp : espnow_send_param_t) (ty : Nat) (data : List Nat)
    (hes : s.handle.entries = none) :
    (espnow_send_data H env s sp ty data).2.2.handle.entries = none := by
  have hl : esp_connection_mac_lookup s.handle sp.dest_mac = none := by
    simp [esp_connection_mac_lookup, hes]
  obtain ⟨_, h2, _, _⟩ := send_data_after_seq H env s sp ty data
  rw [h2, send_data_seq_not_found env s sp (Or.inr hl)]
  exact hes

/-- What `esp_connection_mac_add_to_entry` does to an allocated table: nothing,
or one record with the requested address appended when no record had it. -/
theorem add_to_entry_entries (env : Env) (s : espnow_state) (mac : mac_t)
    (es : List esp_peer_t) (hes : s.handle.entries = some es) :
    (esp_connection_mac_add_to_entry env s mac).2.handle.entries = some es
      ∨ (esp_connection_mac_lookup s.handle mac = none
          ∧ ∃ peer, peer.mac = mac
            ∧ (esp_connection_mac_add_to_entry env s mac).2.handle.entries
                = some (es ++ [peer])) := by
  cases hl : esp_connection_mac_lookup s.handle mac with
  | some j =>
    left
    rw [add_to_entry_found env s mac es j hes hl]
    exact hes
  | none =>
    cases hok : env.malloc_ok s.calls with
    | false =>
      left
      unfold esp_connection_mac_add_to_entry
      simp only [hes, hl, hok, Bool.false_eq_true, if_false]
    | true =>
      right
      rw [add_to_entry_absent env s mac es hes hl hok]
      exact ⟨rfl, _, rfl, rfl⟩

theorem add_to_entry_entries_none (env : Env) (s : espnow_state) (mac : mac_t)
    (hes : s.handle.entries = none) :
    (esp_connection_mac_add_to_entry env s mac).2 = s := by
  unfold esp_connection_mac_add_to_entry
  simp only [hes]

/-- In every reachable state the addresses of the table are pairwise
different. -/
theorem reachable_nodup (H : espnow_h) (s : espnow_state) (h : reachable H s) :
    ∀ es, s.handle.entries = some es → (es.map (fun p => p.mac)).Nodup := by
  induction h with
  | init malloc_ok registered seq_tx queue sent calls =>
    intro es hes
    cases malloc_ok
    · simp [esp_connection_handle_init] at hes
    · simp only [esp_connection_handle_init, if_true, Option.some.injEq] at hes
      rw [← hes]
      simp
  | add env s mac _ ih =>
    intro es2 hes2
    cases hes : s.handle.entries with
    | none =>
      rw [add_to_entry_entries_none env s mac hes, hes] at hes2
      cases hes2
    | some es =>
      rcases add_to_entry_entries env s mac es hes with h | ⟨habs, peer, hmac, h⟩
      · rw [h, Option.some.injEq] at hes2
        rw [← hes2]
        exact ih es hes
      · rw [h, Option.some.injEq] at hes2
        rw [← hes2]
        have hnone : ∀ q ∈ es, q.mac ≠ mac := by
          have := habs
          simp only [esp_connection_mac_lookup, hes] at this
          exact (mac_lookup_from_none mac es 0).1 this
        rw [List.map_append, List.nodup_append]
        refine ⟨ih es hes, by simp, ?_⟩
        intro m hm1 hm2
        simp only [List.map_cons, List.map_nil, List.mem_singleton] at hm2
        obtain ⟨q, hq, hqm⟩ := List.mem_map.1 hm1
        exact hnone q hq (by rw [hqm, hm2, hmac])
  | update env s _ ih =>
    intro es2 hes2
    cases hes : s.handle.entries with
    | none =>
      rw [update_entries_none H env s hes, hes] at hes2
      cases hes2
    | some es =>
      obtain ⟨es3, h3, _, hm⟩ := update_iterations_macs H env s es hes es.length
      rw [update_entries H env s es hes, h3] at hes2
      cases hes2
      rw [hm]
      exact ih es hes
  | send env s sp ty data _ ih =>
    intro es2 hes2
    cases hes : s.handle.entries with
    | none =>
      rw [send_data_entries_none H env s sp ty data hes] at hes2
      cases hes2
    | some es =>
      obtain ⟨es3, h3, _, hm⟩ := send_data_macs H env s sp ty data es hes
      rw [h3] at hes2
      cases hes2
      rw [hm]
      exact ih es hes
  | set_status s i peer st _ hg ih =>
    intro es2 hes2
    cases hes : s.handle.entries with
    | none =>
      simp [espnow_state.get_peer, hes] at hg
    | some es =>
      rw [set_peer_entries s es i _ hes] at hes2
      cases hes2
      have hgi : es[i]? = some peer := by rw [← get_peer_eq s es i hes]; exact hg
      rw [map_set_same (fun (p : esp_peer_t) => p.mac) es i peer (esp_peer_set_status peer st) hgi rfl]
      exact ih es hes
  | send_cb s mac_addr status _ ih =>
    intro es hes
    apply ih es
    rw [← hes]
    unfold espnow_send_cb
    split <;> rfl
  | recv_cb env s src data _ ih =>
    intro es hes
    apply ih es
    rw [← hes]
    unfold espnow_recv_cb
    split
    · split
      · rfl
      · split <;> rfl
    · rfl

theorem nodup_macs_index (es : List esp_peer_t) (hd : (es.map (fun p => p.mac)).Nodup)
    (i j : Nat) (p q : esp_peer_t) (hp : es[i]? = some p) (hq : es[j]? = some q)
    (hm : p.mac = q.mac) : i = j := by
  have hi : i < (es.map (fun p => p.mac)).length := by
    rw [List.length_map]; exact (List.getElem?_eq_some.1 hp).1
  apply List.getElem?_inj hi hd
  rw [List.getElem?_map, List.getElem?_map, hp, hq]
  simp [hm]

/-- In a table with pairwise different addresses the lookup of the address of
record `i` returns `i`. -/
theorem lookup_of_nodup (handle : esp_connection_handle_t) (es : List esp_peer_t)
    (hes : handle.entries = some es) (hd : (es.map (fun p => p.mac)).Nodup)
    (i : Nat) (p : esp_peer_t) (hp : es[i]? = some p) :
    esp_connection_mac_lookup handle p.mac = some i := by
  unfold esp_connection_mac_lookup
  simp only [hes]
  cases hl : mac_lookup_from p.mac es 0 with
  | none =>
    exact absurd rfl ((mac_lookup_from_none p.mac es 0).1 hl p (List.getElem?_mem hp))
  | some j =>
    obtain ⟨_, _, q, hq, hm⟩ := mac_lookup_from_some p.mac es 0 j hl
    rw [Nat.sub_zero] at hq
    rw [nodup_macs_index es hd j i q p hq hp hm]

/-! ## Claims on the order and the addresses of the table -/

/-- C15: insertion order and monotonic growth.  On an allocated table: when
`esp_connection_mac_add_to_entry` inserts an absent address, the resulting table
is the previous table with the new record appended at the end, so every
previous record keeps its index and all of its fields and the size grows by 1;
every call of `esp_connection_mac_add_to_entry` leaves the previous table as an
initial segment of the new one, with at most one record after it; a pass of
`esp_connection_handle_update` and a call of `espnow_send_data` keep the size
and keep every address at its index.  (`esp_connection_mac_lookup` and
`esp_connection_count_connected` only read the table.) -/
theorem table_grows_in_order (H : espnow_h) (env : Env) (s : espnow_state)
    (es : List esp_peer_t) (hes : s.handle.entries = some es) :
    (∀ mac, esp_connection_mac_lookup s.handle mac = none → env.malloc_ok s.calls = true →
        (esp_connection_mac_add_to_entry env s mac).2.handle.entries
            = some (es ++ [esp_connection_peer_init (env.heap_content s.calls) mac
                (env.esp_timer_get_time (s.calls + 1)) (env.esp_timer_get_time (s.calls + 2))])
        ∧ (esp_connection_mac_add_to_entry env s mac).2.handle.size = es.length + 1
        ∧ ∀ k, k < es.length →
            (esp_connection_mac_add_to_entry env s mac).2.get_peer k = es[k]?)
    ∧ (∀ mac, ∃ tail,
        (esp_connection_mac_add_to_entry env s mac).2.handle.entries = some (es ++ tail)
        ∧ tail.length ≤ 1)
    ∧ (∃ es2, (esp_connection_handle_update H env s).handle.entries = some es2
        ∧ es2.length = es.length
        ∧ es2.map (fun p => p.mac) = es.map (fun p => p.mac))
    ∧ (∀ sp ty data, ∃ es2,
        (espnow_send_data H env s sp ty data).2.2.handle.entries = some es2
        ∧ es2.length = es.length
        ∧ es2.map (fun p => p.mac) = es.map (fun p => p.mac)) := by
  refine ⟨?_, ?_, ?_, ?_⟩
  · intro mac habs hok
    rw [add_to_entry_absent env s mac es hes habs hok]
    refine ⟨rfl, by simp [esp_connection_handle_t.size], ?_⟩
    intro k hk
    simp only [espnow_state.get_peer]
    rw [List.getElem?_append_left hk]
  · intro mac
    rcases add_to_entry_entries env s mac es hes with h | ⟨_, peer, _, h⟩
    · exact ⟨[], by rw [h, List.append_nil], by simp⟩
    · exact ⟨[peer], h, by simp⟩
  · obtain ⟨es2, h2, hlen, hm⟩ := update_iterations_macs H env s es hes es.length
    exact ⟨es2, by rw [update_entries H env s es hes]; exact h2, hlen, hm⟩
  · intro sp ty data
    exact send_data_macs H env s sp ty data es hes

/-- Witness of `table_grows_in_order`: a new address added to a table of one
record; the table becomes that record followed by the new one. -/
theorem table_grows_in_order_witness :
    (esp_connection_mac_add_to_entry (sample_env 5000 true)
        (sample_state [sample_peer 9 esp_peer_status_t.CONNECTED 4 5 7])
        ⟨1, 2, 3, 4, 5, 6⟩).2.handle.entries
      = some ([sample_peer 9 esp_peer_status_t.CONNECTED 4 5 7]
          ++ [esp_connection_peer_init ((sample_env 5000 true).heap_content 0) ⟨1, 2, 3, 4, 5, 6⟩
                5000 5000]) :=
  ((table_grows_in_order sample_h (sample_env 5000 true)
    (sample_state [sample_peer 9 esp_peer_status_t.CONNECTED 4 5 7])
    [sample_peer 9 esp_peer_status_t.CONNECTED 4 5 7] rfl).1
    ⟨1, 2, 3, 4, 5, 6⟩ (by rfl) rfl).1

/-- C18: address uniqueness.  In every peer table reachable from
`esp_connection_handle_init` by any sequence of calls of
`esp_connection_mac_add_to_entry`, `esp_connection_handle_update` and
`espnow_send_data` (and of `esp_peer_set_status` and the radio callbacks), no
two records have the same address.  Consequently `esp_connection_mac_lookup`
returns the one record with the given address when there is one (the lookup of
the address of record `i` returns `i`, and whatever it returns has the address)
and `NULL` exactly when no record has the address. -/
theorem reachable_addresses_unique (H : espnow_h) (s : espnow_state) (es : List esp_peer_t)
    (hr : reachable H s) (hes : s.handle.entries = some es) :
    (∀ (i j : Nat) (p q : esp_peer_t),
        es[i]? = some p → es[j]? = some q → p.mac = q.mac → i = j)
    ∧ (∀ (i : Nat) (p : esp_peer_t),
        es[i]? = some p → esp_connection_mac_lookup s.handle p.mac = some i)
    ∧ (∀ (mac : mac_t) (i : Nat), esp_connection_mac_lookup s.handle mac = some i →
        ∃ p, es[i]? = some p ∧ p.mac = mac)
    ∧ (∀ mac : mac_t,
        esp_connection_mac_lookup s.handle mac = none ↔ ∀ p ∈ es, p.mac ≠ mac) := by
  have hd := reachable_nodup H s hr es hes
  refine ⟨?_, ?_, ?_, ?_⟩
  · intro i j p q hp hq hm
    exact nodup_macs_index es hd i j p q hp hq hm
  · intro i p hp
    exact lookup_of_nodup s.handle es hes hd i p hp
  · intro mac i hl
    simp only [esp_connection_mac_lookup, hes] at hl
    obtain ⟨_, _, p, hp, hm⟩ := mac_lookup_from_some mac es 0 i hl
    exact ⟨p, by simpa using hp, hm⟩
  · intro mac
    simp only [esp_connection_mac_lookup, hes]
    exact mac_lookup_from_none mac es 0

/-- Witness of `reachable_addresses_unique`: the table built by two insertions
after `esp_connection_handle_init`; the lookup of the second address returns
position 1. -/
theorem reachable_addresses_unique_witness :
    esp_connection_mac_lookup
        (esp_connection_mac_add_to_entry (sample_env 5000 true)
          (esp_connection_mac_add_to_entry (sample_env 5000 true)
            { handle := esp_connection_handle_init true, handle_registered := true,
              espnow_seq_tx := 0, espnow_queue := [], sent := [], calls := 0 }
            ⟨1, 2, 3, 4, 5, 6⟩).2
          ⟨1, 2, 3, 4, 5, 7⟩).2.handle
        (esp_connection_peer_init ((sample_env 5000 true).heap_content 3) ⟨1, 2, 3, 4, 5, 7⟩
          5000 5000).mac
      = some 1 :=
  (reachable_addresses_unique sample_h
    (esp_connection_mac_add_to_entry (sample_env 5000 true)
      (esp_connection_mac_add_to_entry (sample_env 5000 true)
        { handle := esp_connection_handle_init true, handle_registered := true,
          espnow_seq_tx := 0, espnow_queue := [], sent := [], calls := 0 }
        ⟨1, 2, 3, 4, 5, 6⟩).2
      ⟨1, 2, 3, 4, 5, 7⟩).2
    [esp_connection_peer_init ((sample_env 5000 true).heap_content 0) ⟨1, 2, 3, 4, 5, 6⟩
        5000 5000,
     esp_connection_peer_init ((sample_env 5000 true).heap_content 3) ⟨1, 2, 3, 4, 5, 7⟩
        5000 5000]
    (reachable.add _ _ _ (reachable.add _ _ _ (reachable.init true true 0 [] [] 0)))
    (by rfl)).2.1 1 _ rfl

/-! ## Reconciliation pass: whole records, in a table with distinct addresses -/

theorem list_set_self {α : Type} (l : List α) (i : Nat) (a : α) (h : l[i]? = some a) :
    l.set i a = l := by
  have := map_set_same (fun x : α => x) l i a a h rfl
  simpa using this

/-- In a table with pairwise different addresses, `espnow_send_data` to the
address of record `i` changes at most record `i`. -/
theorem send_data_entries_at (H : espnow_h) (env : Env) (s : espnow_state)
    (sp : espnow_send_param_t) (ty : Nat) (data : List Nat)
    (es : List esp_peer_t) (i : Nat) (p : esp_peer_t)
    (hes : s.handle.entries = some es) (hd : (es.map (fun r => r.mac)).Nodup)
    (hp : es[i]? = some p) (hdest : sp.dest_mac = p.mac) :
    ∃ r, (espnow_send_data H env s sp ty data).2.2.handle.entries = some (es.set i r) := by
  obtain ⟨_, h2, _, _⟩ := send_data_after_seq H env s sp ty data
  rw [h2]
  by_cases hreg : s.handle_registered = true
  · have hl : esp_connection_mac_lookup s.handle sp.dest_mac = some i := by
      rw [hdest]
      exact lookup_of_nodup s.handle es hes hd i p hp
    rw [send_data_seq_found env s sp es i p hreg hes hl hp]
    exact ⟨_, set_peer_entries s es i _ hes⟩
  · have hf : s.handle_registered = false := by simpa using hreg
    rw [send_data_seq_not_found env s sp (Or.inl hf)]
    exact ⟨p, by rw [list_set_self es i p hp]; exact hes⟩

/-- In a table with pairwise different addresses, iteration `i` of the loop
changes at most record `i`. -/
theorem update_peer_at (H : espnow_h) (env : Env) (s : espnow_state) (i : Nat)
    (es : List esp_peer_t) (p : esp_peer_t)
    (hes : s.handle.entries = some es) (hd : (es.map (fun r => r.mac)).Nodup)
    (hp : es[i]? = some p) :
    ∃ r, (esp_connection_handle_update_peer H env s i).handle.entries = some (es.set i r) := by
  have hg : s.get_peer i = some p := by rw [get_peer_eq s es i hes]; exact hp
  have hself : s.handle.entries = some (es.set i p) := by
    rw [list_set_self es i p hp]; exact hes
  cases hst : p.status
  case AVAILABLE =>
    rw [update_peer_available H env s i p hg hst]
    have hlt : i < es.length := (List.getElem?_eq_some.1 hp).1
    have hes1 : (({ s with calls := s.calls + 1 } : espnow_state).set_peer i
        { p with connect_time_us := env.esp_timer_get_time s.calls }).handle.entries
          = some (es.set i { p with connect_time_us := env.esp_timer_get_time s.calls }) :=
      set_peer_entries _ es i _ hes
    have hd1 : ((es.set i { p with connect_time_us := env.esp_timer_get_time s.calls }).map
        (fun r => r.mac)).Nodup := by
      rw [map_set_same (fun (r : esp_peer_t) => r.mac) es i p
        { p with connect_time_us := env.esp_timer_get_time s.calls } hp rfl]
      exact hd
    have hp1 : (es.set i { p with connect_time_us := env.esp_timer_get_time s.calls })[i]?
        = some { p with connect_time_us := env.esp_timer_get_time s.calls } := by
      rw [List.getElem?_set_self hlt]
    obtain ⟨r, hr⟩ := send_data_entries_at H env _
      (espnow_get_send_param_unicast H (espnow_default_send_param H) p.mac)
      H.ESP_PEER_PACKET_CONNECT [] _ i _ hes1 hd1 hp1 rfl
    rw [List.set_set] at hr
    split
    · exact ⟨r, hr⟩
    · rename_i peer2 _
      refine ⟨esp_peer_set_status peer2 esp_peer_status_t.CONNECTING, ?_⟩
      rw [set_peer_entries _ _ i _ hr, List.set_set]
  all_goals
    unfold esp_connection_handle_update_peer
    simp only [hg, hst]
    first
      | exact ⟨p, hself⟩
      | (split
         · exact ⟨_, set_peer_entries _ es i _ hes⟩
         · exact ⟨p, hself⟩)

theorem update_peer_lost (H : espnow_h) (env : Env) (s : espnow_state) (i : Nat)
    (p : esp_peer_t) (hg : s.get_peer i = some p)
    (hst : p.status = esp_peer_status_t.LOST ∨ p.status = esp_peer_status_t.MAX) :
    esp_connection_handle_update_peer H env s i = s := by
  unfold esp_connection_handle_update_peer
  rcases hst with h | h <;> simp only [hg, h]

/-- In a table with pairwise different addresses, a record that is `LOST` (or
holds the sentinel status) is the same record after any number of iterations of
the loop. -/
theorem update_iterations_lost (H : espnow_h) (env : Env) (s : espnow_state)
    (es : List esp_peer_t) (k : Nat) (p : esp_peer_t)
    (hes : s.handle.entries = some es) (hd : (es.map (fun r => r.mac)).Nodup)
    (hp : es[k]? = some p)
    (hst : p.status = esp_peer_status_t.LOST ∨ p.status = esp_peer_status_t.MAX) (n : Nat) :
    ∃ es2, (update_iterations H env s n).handle.entries = some es2 ∧ es2[k]? = some p := by
  induction n with
  | zero => exact ⟨es, hes, hp⟩
  | succ n ih =>
    obtain ⟨es2, h2, hk⟩ := ih
    rw [update_iterations_succ]
    by_cases hnk : n = k
    · subst hnk
      rw [update_peer_lost H env _ n p (by rw [get_peer_eq _ es2 n h2]; exact hk) hst]
      exact ⟨es2, h2, hk⟩
    · cases hn : es2[n]? with
      | none =>
        rw [update_peer_skip H env _ n (by rw [get_peer_eq _ es2 n h2]; exact hn)]
        exact ⟨es2, h2, hk⟩
      | some pn =>
        obtain ⟨es3, h3, _, hm⟩ := update_iterations_macs H env s es hes n
        rw [h2, Option.some.injEq] at h3
        subst h3
        obtain ⟨r, hr⟩ := update_peer_at H env (update_iterations H env s n) n es2 pn h2
          (by rw [hm]; exact hd) hn
        exact ⟨_, hr, by rw [List.getElem?_set_ne hnk]; exact hk⟩

theorem peer_step_status_cases (t : Int) (p : esp_peer_t) :
    (peer_step t p).status = p.status
    ∨ ((p.status = esp_peer_status_t.UNKNOWN ∨ p.status = esp_peer_status_t.IN_RANGE
          ∨ p.status = esp_peer_status_t.NOREPLY ∨ p.status = esp_peer_status_t.REJECTED
          ∨ p.status = esp_peer_status_t.PROTOCOL_ERROR
          ∨ p.status = esp_peer_status_t.CONNECTED)
        ∧ (peer_step t p).status = esp_peer_status_t.LOST)
    ∨ (p.status = esp_peer_status_t.CONNECTING
        ∧ (peer_step t p).status = esp_peer_status_t.NOREPLY)
    ∨ (p.status = esp_peer_status_t.AVAILABLE
        ∧ (peer_step t p).status = esp_peer_status_t.CONNECTING) := by
  unfold peer_step
  cases h : p.status <;> simp only [] <;> (try split) <;> simp [h]

/-! ## Claims on the transitions of a pass -/

theorem sample_reached_reachable : reachable sample_h sample_reached :=
  reachable.set_status _ 0 _ esp_peer_status_t.LOST
    (reachable.add _ _ _ (reachable.init true true 0 [] [] 0)) (by rfl)

/-- C16: the reconciliation step relation is the transition table.  In one
`esp_connection_handle_update` pass (whatever the clock does) the status of a
record changes at most once: it keeps its initial status until its own loop
iteration and has its final status after it.  The only possible changes are
`UNKNOWN`, `IN_RANGE`, `NOREPLY`, `REJECTED`, `PROTOCOL_ERROR`, `CONNECTED` to
`LOST`, `CONNECTING` to `NOREPLY`, and `AVAILABLE` to `CONNECTING`; no pass
moves a peer into `CONNECTED`, `AVAILABLE`, `UNKNOWN` or `IN_RANGE`; and in
every reachable state a peer that is `LOST` stays `LOST` with all fields
unchanged. -/
theorem update_transitions (H : espnow_h) (env : Env) (s : espnow_state)
    (es : List esp_peer_t) (i : Nat) (p : esp_peer_t)
    (hes : s.handle.entries = some es) (hp : es[i]? = some p) :
    ∃ q, (esp_connection_handle_update H env s).get_peer i = some q
      ∧ (∀ n, ∃ r, (update_iterations H env s n).get_peer i = some r
          ∧ r.status = if n ≤ i then p.status else q.status)
      ∧ (q.status = p.status
          ∨ ((p.status = esp_peer_status_t.UNKNOWN ∨ p.status = esp_peer_status_t.IN_RANGE
                ∨ p.status = esp_peer_status_t.NOREPLY ∨ p.status = esp_peer_status_t.REJECTED
                ∨ p.status = esp_peer_status_t.PROTOCOL_ERROR
                ∨ p.status = esp_peer_status_t.CONNECTED)
              ∧ q.status = esp_peer_status_t.LOST)
          ∨ (p.status = esp_peer_status_t.CONNECTING
              ∧ q.status = esp_peer_status_t.NOREPLY)
          ∨ (p.status = esp_peer_status_t.AVAILABLE
              ∧ q.status = esp_peer_status_t.CONNECTING))
      ∧ ((q.status = esp_peer_status_t.CONNECTED ∨ q.status = esp_peer_status_t.AVAILABLE
            ∨ q.status = esp_peer_status_t.UNKNOWN ∨ q.status = esp_peer_status_t.IN_RANGE) →
          p.status = q.status)
      ∧ (reachable H s → p.status = esp_peer_status_t.LOST → q = p) := by
  have hlt : i < es.length := (List.getElem?_eq_some.1 hp).1
  obtain ⟨es2, h2, _, hpt⟩ := update_iterations_entries_any H env s es hes es.length
  obtain ⟨q, hq, hlo, _⟩ := hpt i p hp
  have hvq := hlo hlt
  have hstq := (peer_view_fields q _ hvq).2.1
  have hcases := peer_step_status_cases
    (env.esp_timer_get_time (update_iterations H env s i).calls) p
  rw [← hstq] at hcases
  have hgq : (esp_connection_handle_update H env s).get_peer i = some q := by
    rw [update_get_peer H env s es hes, get_peer_eq _ es2 i h2]
    exact hq
  refine ⟨q, hgq, ?_, hcases, ?_, ?_⟩
  · intro n
    obtain ⟨esn, hn, _, hptn⟩ := update_iterations_entries_any H env s es hes n
    obtain ⟨r, hr, hlon, hhin⟩ := hptn i p hp
    refine ⟨r, by rw [get_peer_eq _ esn i hn]; exact hr, ?_⟩
    by_cases hle : n ≤ i
    · rw [if_pos hle, (peer_view_fields r p (hhin hle)).2.1]
    · rw [if_neg hle, (peer_view_fields r _ (hlon (by omega))).2.1, hstq]
  · intro hfin
    rcases hcases with h | ⟨_, h⟩ | ⟨_, h⟩ | ⟨_, h⟩
    · exact h.symm
    all_goals
      rw [h] at hfin
      simp at hfin
  · intro hr hst
    have hd := reachable_nodup H s hr es hes
    obtain ⟨es3, h3, hk⟩ := update_iterations_lost H env s es i p hes hd hp (Or.inl hst)
      es.length
    rw [h2, Option.some.injEq] at h3
    rw [← h3, hq, Option.some.injEq] at hk
    exact hk

/-- Witness of `update_transitions`: in the sample reachable state, whose one
record is `LOST`, a pass leaves the record as it is. -/
theorem update_transitions_witness :
    ∃ q, (esp_connection_handle_update sample_h (sample_env 9000000 true)
        sample_reached).get_peer 0 = some q
      ∧ q = esp_peer_set_status
          (esp_connection_peer_init ((sample_env 5000 true).heap_content 0)
            ⟨1, 2, 3, 4, 5, 6⟩ 5000 5000)
          esp_peer_status_t.LOST :=
  Exists.imp (fun _ h => ⟨h.1, h.2.2.2.2 sample_reached_reachable rfl⟩)
    (update_transitions sample_h (sample_env 9000000 true) sample_reached
      [esp_peer_set_status
        (esp_connection_peer_init ((sample_env 5000 true).heap_content 0)
          ⟨1, 2, 3, 4, 5, 6⟩ 5000 5000)
        esp_peer_status_t.LOST] 0
      (esp_peer_set_status
        (esp_connection_peer_init ((sample_env 5000 true).heap_content 0)
          ⟨1, 2, 3, 4, 5, 6⟩ 5000 5000)
        esp_peer_status_t.LOST) (by rfl) rfl)

end Espnow
